import Mathlib

/-! RDO statement interpolation (`ext/rdo/rdo.c`)

A shallow embedding of `rdo_driver_quote_params` and `rdo_driver_interpolate`,
followed by the properties proved about them.

Modelling conventions

* A C `char` is a Lean `Char`: every element of a list stands for one byte
  (the bytes with a meaning for the code are ASCII; any other `Char` is a byte
  without special meaning).  A Ruby `String` is a `List Char` that may hold
  NUL bytes and whose `RSTRING_LEN` is the length of the list.  Reading a
  `char *` as a C string (`*s` loop condition, `strdup`, `strcpy`, `%s`,
  `rb_str_new2`) stops at the first NUL: `cstr`.
* The output buffer is the list of characters written through `b`, in order.
* `rb_raise` is `Except.error`; a raised call returns no text.
* `Check_Type(stmt, T_STRING)` and `Check_Type(params, T_ARRAY)` (lines 75-76)
  are discharged by the argument types of `rdo_driver_interpolate`.
-/

namespace RDO

/-! ## Ruby values -/

/-- The terminator of a C string. -/
def NUL : Char := Char.ofNat 0

/-- The builtin types the code distinguishes with `TYPE(...)`. -/
inductive RType
  | T_NIL
  | T_FIXNUM
  | T_BIGNUM
  | T_FLOAT
  | T_STRING
  | T_OBJECT
  deriving DecidableEq, Repr

/-- A Ruby Float, represented by the text `Float#to_s` renders for it (Ruby
core; the rendering never holds a NUL byte).  Floating-point arithmetic is
outside this development. -/
structure RFloat where
  text : List Char
  nonul : NUL ∉ text
  deriving DecidableEq

/-- The largest Fixnum, `FIXNUM_MAX` of ruby.h (`LONG_MAX >> 1`), on a
platform whose `long` has 64 bits. -/
def FIXNUM_MAX : Int := 4611686018427387903

/-- The smallest Fixnum, `FIXNUM_MIN` of ruby.h (`LONG_MIN >> 1`), on a
platform whose `long` has 64 bits. -/
def FIXNUM_MIN : Int := -4611686018427387904

/-- A Ruby `VALUE`, as far as the code inspects it.  An Integer is a Fixnum
when it lies between `FIXNUM_MIN` and `FIXNUM_MAX` and a Bignum otherwise;
every class the code does not name is an `object`. -/
inductive VALUE
  | nil
  | fixnum (n : Int) (fixable : FIXNUM_MIN ≤ n ∧ n ≤ FIXNUM_MAX)
  | bignum (n : Int) (beyond : n < FIXNUM_MIN ∨ FIXNUM_MAX < n)
  | float (f : RFloat)
  | string (s : List Char)
  | object (id : Nat)
  deriving DecidableEq

/-- The macro `TYPE(v)`. -/
def TYPE : VALUE → RType
  | .nil => .T_NIL
  | .fixnum _ _ => .T_FIXNUM
  | .bignum _ _ => .T_BIGNUM
  | .float _ => .T_FLOAT
  | .string _ => .T_STRING
  | .object _ => .T_OBJECT

/-- The bytes of a Ruby String (`RSTRING_PTR` together with `RSTRING_LEN`). -/
def RSTRING : VALUE → List Char
  | .string s => s
  | _ => []

/-- The exceptions the code raises. `TypeError` records what the message of
a failed `Check_Type` names: the type of the value it was given and the type
it expected.  `ArgumentError` records the three arguments formatted into the
message of line 170. -/
inductive Error
  | TypeError (actual : RType) (expected : RType)
  | ArgumentError (argc : Nat) (n : Nat) (query : List Char)
  deriving DecidableEq

/-- The macro `Check_Type(x, t)`: raises `TypeError` unless `TYPE(x) == t`. -/
def Check_Type (x : VALUE) (t : RType) : Except Error Unit :=
  if TYPE x = t then .ok () else .error (.TypeError (TYPE x) t)

/-- A `char *` read as a C string: the bytes before the first NUL. -/
def cstr (s : List Char) : List Char :=
  s.takeWhile (fun c => decide (c ≠ NUL))

/-- Decimal rendering of an Integer, as `Fixnum#to_s` and `Bignum#to_s`
(Ruby core). -/
def fixnum_to_s : Int → List Char
  | .ofNat n => Nat.toDigits 10 n
  | .negSucc n => '-' :: Nat.toDigits 10 (n + 1)

/-- The call `rb_funcall(v, rb_intern("to_s"), 0)` (Ruby core).  The code
makes it on a Fixnum or a Float only; the value on the other classes is never
used. -/
def to_s : VALUE → VALUE
  | .fixnum n _ => .string (fixnum_to_s n)
  | .bignum n _ => .string (fixnum_to_s n)
  | .float f => .string f.text
  | .nil => .string []
  | .string s => .string s
  | .object _ => .string []

/-- The driver object `self`: its `#quote` method, supplied by the concrete
driver, may return any value. -/
structure Driver where
  quote : VALUE → VALUE

/-! ## `rdo_driver_quote_params` (lines 13-48) -/

/-- The body of the `switch` of lines 21-44 for one argument: the C string
stored in `quoted[idx]` and the amount added to `*len`. -/
def quote_case (self : Driver) (arg : VALUE) : Except Error (List Char × Nat) :=
  match TYPE arg with
  | .T_NIL => .ok (['N', 'U', 'L', 'L'], 4)
  | .T_FIXNUM | .T_FLOAT =>
    let tmp := to_s arg
    match Check_Type tmp .T_STRING with
    | .error e => .error e
    | .ok _ => .ok (cstr (RSTRING tmp), (RSTRING tmp).length)
  | _ =>
    let tmp := self.quote arg
    match Check_Type tmp .T_STRING with
    | .error e => .error e
    | .ok _ => .ok ('\'' :: (cstr (RSTRING tmp) ++ ['\'']), 2 + (RSTRING tmp).length)

/-- The `for` loop of lines 20-45 over the remaining arguments, with the
fragments stored so far and the running `*len`. -/
def quote_loop (self : Driver) :
    List VALUE → List (List Char) → Nat → Except Error (List (List Char) × Nat)
  | [], quoted, len => .ok (quoted, len)
  | arg :: args, quoted, len =>
    match quote_case self arg with
    | .error e => .error e
    | .ok (q, l) => quote_loop self args (quoted ++ [q]) (len + l)

/-- Quote parameters in params array: the fragments and `*len`. -/
def rdo_driver_quote_params (self : Driver) (args : List VALUE) :
    Except Error (List (List Char) × Nat) :=
  quote_loop self args [] 0

/-! ## `rdo_driver_interpolate` (lines 74-175) -/

/-- The local variables of the scan: the bytes written through `b`, the
marker counter `n` and the four context variables. -/
structure Scan where
  b : List Char
  n : Nat
  insquote : Bool
  indquote : Bool
  inmlcmt : Int
  inslcmt : Bool
  deriving DecidableEq

/-- The state at line 93, before the loop. -/
def Scan.init : Scan :=
  { b := [], n := 0, insquote := false, indquote := false, inmlcmt := 0, inslcmt := false }

/-- Append bytes to the buffer. -/
def Scan.put (st : Scan) (cs : List Char) : Scan :=
  { st with b := st.b ++ cs }

/-- The same scan placed after an earlier part of the run that wrote `pre`
and resolved `k` markers. -/
def Scan.shift (pre : List Char) (k : Nat) (st : Scan) : Scan :=
  { st with b := pre ++ st.b, n := st.n + k }

/-- Lines 98-103, `case '\\'`: an escaped marker drops the backslash. -/
def case_backslash (c next : Char) (st : Scan) : Scan × Bool :=
  if !st.insquote && !st.indquote && st.inmlcmt == 0 && !st.inslcmt && next == '?' then
    (st.put [next], true)
  else
    (st.put [c], false)

/-- Lines 105-117, `case '?'`: a marker outside quotes and comments is
counted, and replaced while fragments remain. -/
def case_marker (quoted_params : List (List Char)) (argc : Nat) (c : Char) (st : Scan) :
    Scan × Bool :=
  if st.insquote || st.indquote || st.inmlcmt != 0 || st.inslcmt then
    (st.put [c], false)
  else if st.n < argc then
    ({ st.put (quoted_params.getD st.n []) with n := st.n + 1 }, false)
  else
    ({ st.put [c] with n := st.n + 1 }, false)

/-- Lines 119-125, `case '-'`. -/
def case_dash (c next : Char) (st : Scan) : Scan × Bool :=
  if !st.insquote && !st.indquote && st.inmlcmt == 0 && next == '-' then
    ({ st.put [c, next] with inslcmt := true }, true)
  else
    (st.put [c], false)

/-- Lines 127-131, `case '\r'` and `case '\n'`. -/
def case_newline (c : Char) (st : Scan) : Scan × Bool :=
  ({ st.put [c] with inslcmt := false }, false)

/-- Lines 133-139, `case '/'`. -/
def case_slash (c next : Char) (st : Scan) : Scan × Bool :=
  if !st.insquote && !st.indquote && !st.inslcmt && next == '*' then
    ({ st.put [c, next] with inmlcmt := st.inmlcmt + 1 }, true)
  else
    (st.put [c], false)

/-- Lines 141-147, `case '*'`. -/
def case_star (c next : Char) (st : Scan) : Scan × Bool :=
  if st.inmlcmt != 0 && next == '/' then
    ({ st.put [c, next] with inmlcmt := st.inmlcmt - 1 }, true)
  else
    (st.put [c], false)

/-- Lines 149-152, `case '\''`. -/
def case_squote (c : Char) (st : Scan) : Scan × Bool :=
  if !st.indquote && st.inmlcmt == 0 && !st.inslcmt then
    ({ st.put [c] with insquote := !st.insquote }, false)
  else
    (st.put [c], false)

/-- Lines 154-157, `case '"'`. -/
def case_dquote (c : Char) (st : Scan) : Scan × Bool :=
  if !st.insquote && st.inmlcmt == 0 && !st.inslcmt then
    ({ st.put [c] with indquote := !st.indquote }, false)
  else
    (st.put [c], false)

/-- Lines 159-160, `default`. -/
def case_default (c : Char) (st : Scan) : Scan × Bool :=
  (st.put [c], false)

/-- One iteration of the `switch` of lines 97-161 at `*s = c` with
`*(s + 1) = next`.  The Boolean tells whether the body advanced `s` itself
(so that the iteration consumed two bytes of the statement). -/
def body (quoted_params : List (List Char)) (argc : Nat) (c next : Char) (st : Scan) :
    Scan × Bool :=
  if c = '\\' then case_backslash c next st
  else if c = '?' then case_marker quoted_params argc c st
  else if c = '-' then case_dash c next st
  else if c = '\r' ∨ c = '\n' then case_newline c st
  else if c = '/' then case_slash c next st
  else if c = '*' then case_star c next st
  else if c = '\'' then case_squote c st
  else if c = '"' then case_dquote c st
  else case_default c st

/-- The loop of line 96 over the C string at `s` (the bytes before the
terminator; `*(s + 1)` of the last byte is the terminator). -/
def loop (quoted_params : List (List Char)) (argc : Nat) : List Char → Scan → Scan
  | [], st => st
  | [c], st => (body quoted_params argc c NUL st).1
  | c :: next :: rest, st =>
    match body quoted_params argc c next st with
    | (st', true) => loop quoted_params argc rest st'
    | (st', false) => loop quoted_params argc (next :: rest) st'

/-- Takes String stmt, which contains ? markers and interpolates the values
in Array params. -/
def rdo_driver_interpolate (self : Driver) (stmt : List Char) (params : List VALUE) :
    Except Error (List Char) :=
  let argc := params.length
  match rdo_driver_quote_params self params with
  | .error e => .error e
  | .ok (quoted_params, _buflen) =>
    let st := loop quoted_params argc (cstr stmt) Scan.init
    if st.n ≠ argc then
      .error (.ArgumentError argc st.n (cstr stmt))
    else
      .ok (cstr st.b)

/-! ## Vocabulary of the properties -/

/-- Text free of what changes the scanner's context: no backslash, no quote
character of either kind, and neither of the substrings `--` and `/*`. -/
def Unquoted (t : List Char) : Prop :=
  '\\' ∉ t ∧ '\'' ∉ t ∧ '"' ∉ t ∧ ¬ ['-', '-'] <:+: t ∧ ¬ ['/', '*'] <:+: t

instance : DecidablePred Unquoted := fun t => by
  unfold Unquoted
  infer_instance

/-- A plain prefix: `Unquoted` text without a marker. -/
def Plain (p : List Char) : Prop :=
  '?' ∉ p ∧ Unquoted p

instance : DecidablePred Plain := fun p => by
  unfold Plain
  infer_instance

/-- The state outside every quote and comment, with `b` written and `n`
markers resolved. -/
def Scan.normal (b : List Char) (n : Nat) : Scan :=
  { b := b, n := n, insquote := false, indquote := false, inmlcmt := 0, inslcmt := false }

/-- What the scan writes for text read outside every quote and comment,
starting with `n` markers resolved: each marker becomes the next fragment
while `n < argc`, and stays a marker afterwards. -/
def fill (quoted_params : List (List Char)) (argc : Nat) : List Char → Nat → List Char
  | [], _ => []
  | c :: t, n =>
    if c = '?' then
      (if n < argc then quoted_params.getD n [] else [c]) ++ fill quoted_params argc t (n + 1)
    else
      c :: fill quoted_params argc t n

/-- The reference result of the spec for a template whose markers are all
eligible: the template split at every `?`, the i-th piece followed by the i-th
fragment, the last piece by nothing. -/
def interpolate_reference (template : List Char) (fragments : List (List Char)) : List Char :=
  (List.zipWith (fun piece fragment => piece ++ fragment) (template.splitOn '?')
    (fragments ++ [[]])).flatten

/-- The state inside a line comment entered from outside every quote and
block comment. -/
def Scan.lineComment (b : List Char) (n : Nat) : Scan :=
  { b := b, n := n, insquote := false, indquote := false, inmlcmt := 0, inslcmt := true }

/-- The state inside block comments nested `depth` deep, outside every quote
and line comment (`depth = 0`: outside every comment). -/
def Scan.blockComment (b : List Char) (n : Nat) (depth : Int) : Scan :=
  { b := b, n := n, insquote := false, indquote := false, inmlcmt := depth, inslcmt := false }

/-- The contents of a well-nested block comment: a sequence of characters
other than `/` and `*` and of well-nested block comments. -/
inductive CommentItems : List Char → Prop
  | nil : CommentItems []
  | char (c : Char) (s : List Char) :
      c ≠ '/' → c ≠ '*' → CommentItems s → CommentItems (c :: s)
  | nested (inner s : List Char) :
      CommentItems inner → CommentItems s →
        CommentItems ('/' :: '*' :: (inner ++ '*' :: '/' :: s))

/-- A well-nested block comment: `/*`, contents, `*/`. -/
inductive BlockComment : List Char → Prop
  | mk (items : List Char) :
      CommentItems items → BlockComment ('/' :: '*' :: (items ++ ['*', '/']))

/-- The state inside a single-quoted literal opened outside every comment. -/
def Scan.singleQuoted (b : List Char) (n : Nat) : Scan :=
  { b := b, n := n, insquote := true, indquote := false, inmlcmt := 0, inslcmt := false }

/-- The state inside a double-quoted literal opened outside every comment. -/
def Scan.doubleQuoted (b : List Char) (n : Nat) : Scan :=
  { b := b, n := n, insquote := false, indquote := true, inmlcmt := 0, inslcmt := false }

/-- A parameter of the kind the driver quotes: neither nil nor a Fixnum nor a
Float (the `default` branch of the quoting switch). -/
def Other (v : VALUE) : Prop :=
  TYPE v ≠ .T_NIL ∧ TYPE v ≠ .T_FIXNUM ∧ TYPE v ≠ .T_FLOAT

instance : DecidablePred Other := fun v => by
  unfold Other
  infer_instance

/-- A parameter that the driver quotes and for which its `#quote` returns a
value that is not a String. -/
def Offending (self : Driver) (v : VALUE) : Prop :=
  Other v ∧ TYPE (self.quote v) ≠ .T_STRING

instance (self : Driver) : DecidablePred (Offending self) := fun v => by
  unfold Offending
  infer_instance

/-- The value of a decimal digit, for the ten ASCII digits only. -/
def digit_value (c : Char) : Option Nat :=
  if 48 ≤ c.toNat ∧ c.toNat ≤ 57 then some (c.toNat - 48) else none

/-- Reading a run of decimal digits, most significant first, continuing the
number `acc` read so far. -/
def parse_digits : List Char → Nat → Option Nat
  | [], acc => some acc
  | c :: cs, acc =>
    match digit_value c with
    | some d => parse_digits cs (10 * acc + d)
    | none => none

/-- Parsing text back as a decimal integer: an optional minus sign followed by
one or more decimal digits, and nothing else. -/
def parse_decimal : List Char → Option Int
  | [] => none
  | c :: cs =>
    if c = '-' then
      if cs = [] then none else (parse_digits cs 0).map fun m => -(m : Int)
    else
      (parse_digits (c :: cs) 0).map fun m => (m : Int)

/-- The states of the scan at the start of every iteration of the loop of line
96 and at its exit, in order: the states after scanning each prefix that the
loop has consumed. -/
def loop_states (quoted_params : List (List Char)) (argc : Nat) :
    List Char → Scan → List Scan
  | [], st => [st]
  | [c], st => [st, (body quoted_params argc c NUL st).1]
  | c :: next :: rest, st =>
    st :: (match body quoted_params argc c next st with
      | (st', true) => loop_states quoted_params argc rest st'
      | (st', false) => loop_states quoted_params argc (next :: rest) st')

/-- The number of active contexts among: inside a single-quoted string,
inside a double-quoted string, inside a line comment, block-comment depth
above zero. -/
def Scan.active (st : Scan) : Nat :=
  (if st.insquote then 1 else 0) + (if st.indquote then 1 else 0) +
    (if st.inslcmt then 1 else 0) + (if 0 < st.inmlcmt then 1 else 0)

/-- The total length of the fragments not yet used when `n` markers are
resolved. -/
def fragments_left (quoted_params : List (List Char)) (n : Nat) : Nat :=
  ((quoted_params.drop n).map List.length).sum

/-- The contents of a single-quoted literal in the SQL style: characters other
than the single quote, and doubled single quotes, in any number and order. -/
inductive DoubledText : List Char → Prop
  | nil : DoubledText []
  | char (c : Char) (s : List Char) : c ≠ '\'' → DoubledText s → DoubledText (c :: s)
  | pair (s : List Char) : DoubledText s → DoubledText ('\'' :: '\'' :: s)

/-- The macro `RDO_BOOL(s)` (util/macros.h, line 193) on the C string `s`:
`s[0]` is its first byte, or the terminator when the string is empty; `Qtrue`
is `true` and `Qfalse` is `false`. -/
def RDO_BOOL (s : List Char) : Bool :=
  if s.headD NUL = 't' then true else false

/-! ## Basic facts about the scan -/

/-- The body never advances `s` when the next byte is the terminator. -/
theorem body_NUL_snd (q : List (List Char)) (a : Nat) (c : Char) (st : Scan) :
    (body q a c NUL st).2 = false := by
  have h1 : (NUL == '?') = false := by decide
  have h2 : (NUL == '-') = false := by decide
  have h3 : (NUL == '*') = false := by decide
  have h4 : (NUL == '/') = false := by decide
  unfold body
  split_ifs
  · simp [case_backslash, h1]
  · unfold case_marker
    split_ifs <;> rfl
  · simp [case_dash, h2]
  · rfl
  · simp [case_slash, h3]
  · simp [case_star, h4]
  · unfold case_squote
    split_ifs <;> rfl
  · unfold case_dquote
    split_ifs <;> rfl
  · rfl

/-- One unfolding of the loop: the body runs at the first byte with the
following byte (or the terminator) as lookahead, and the loop continues one or
two bytes further. -/
theorem loop_cons (q : List (List Char)) (a : Nat) (c : Char) (s : List Char) (st : Scan) :
    loop q a (c :: s) st =
      loop q a (if (body q a c (s.headD NUL) st).2 then s.tail else s)
        (body q a c (s.headD NUL) st).1 := by
  cases s with
  | nil => simp [loop, body_NUL_snd]
  | cons d s =>
    simp only [loop, List.headD_cons, List.tail_cons]
    rcases hb : body q a c d st with ⟨st1, adv⟩
    cases adv <;> simp

/-- Induction along the scan: a property of lists that holds for the empty
list and passes from both possible continuations to the whole. -/
theorem scan_induction {P : List Char → Prop} (h0 : P [])
    (h1 : ∀ c s, P s → P s.tail → P (c :: s)) : ∀ s, P s := by
  have key : ∀ n : Nat, ∀ s : List Char, s.length ≤ n → P s := by
    intro n
    induction n with
    | zero =>
      intro s hs
      have : s = [] := List.length_eq_zero.mp (Nat.le_zero.mp hs)
      simpa [this] using h0
    | succ n ih =>
      intro s hs
      cases s with
      | nil => exact h0
      | cons c s =>
        have hl : s.length ≤ n := by simpa using hs
        refine h1 c s (ih s hl) (ih s.tail ?_)
        have := List.length_tail s
        omega
  intro s
  exact key s.length s le_rfl

/-- The body commutes with placing the scan after an earlier part that
consumed the fragments `front`. -/
theorem body_shift (front q : List (List Char)) (a : Nat) (pre : List Char) (c next : Char)
    (st : Scan) :
    body (front ++ q) (a + front.length) c next (st.shift pre front.length) =
      ((body q a c next st).1.shift pre front.length, (body q a c next st).2) := by
  have hg : (front ++ q).getD (st.n + front.length) [] = q.getD st.n [] := by
    rw [List.getD_append_right _ _ _ _ (by omega)]
    simp
  unfold body
  split_ifs
  · simp only [case_backslash, Scan.shift, Scan.put]
    split_ifs <;> simp
  · simp only [case_marker, Scan.shift, Scan.put, hg, Nat.add_lt_add_iff_right]
    split_ifs <;> simp [Nat.add_right_comm]
  · simp only [case_dash, Scan.shift, Scan.put]
    split_ifs <;> simp
  · simp [case_newline, Scan.shift, Scan.put]
  · simp only [case_slash, Scan.shift, Scan.put]
    split_ifs <;> simp
  · simp only [case_star, Scan.shift, Scan.put]
    split_ifs <;> simp
  · simp only [case_squote, Scan.shift, Scan.put]
    split_ifs <;> simp
  · simp only [case_dquote, Scan.shift, Scan.put]
    split_ifs <;> simp
  · simp [case_default, Scan.shift, Scan.put]

/-- The loop commutes with placing the scan after an earlier part that
consumed the fragments `front`. -/
theorem loop_shift (front q : List (List Char)) (a : Nat) (pre : List Char) :
    ∀ (s : List Char) (st : Scan),
      loop (front ++ q) (a + front.length) s (st.shift pre front.length) =
        (loop q a s st).shift pre front.length := by
  intro s
  induction s using scan_induction with
  | h0 => intro st; simp [loop]
  | h1 c s ih1 ih2 =>
    intro st
    rw [loop_cons, loop_cons, body_shift]
    cases (body q a c (s.headD NUL) st).2
    · simpa using ih1 _
    · simpa using ih2 _

/-! ## C strings -/

theorem cstr_nonul (s : List Char) : NUL ∉ cstr s := by
  intro h
  have := List.mem_takeWhile_imp h
  simp at this

theorem cstr_of_nonul {s : List Char} (h : NUL ∉ s) : cstr s = s := by
  unfold cstr
  rw [List.takeWhile_eq_self_iff]
  intro c hc
  have : c ≠ NUL := fun e => h (e ▸ hc)
  simpa using this

theorem cstr_append {p : List Char} (h : NUL ∉ p) (s : List Char) :
    cstr (p ++ s) = p ++ cstr s := by
  induction p with
  | nil => rfl
  | cons c p ih =>
    have hc : c ≠ NUL := fun e => h (by simp [e])
    have hp : NUL ∉ p := fun e => h (by simp [e])
    have ih := ih hp
    simp only [cstr, List.cons_append, List.takeWhile_cons] at ih ⊢
    rw [if_pos (by simpa using hc), ih]

theorem cstr_NUL_cons (s : List Char) : cstr (NUL :: s) = [] := by
  simp [cstr, List.takeWhile_cons]

/-! ## The quoting pass -/

/-- The fragment and length stored for an argument that the driver quotes. -/
theorem quote_case_default (self : Driver) (arg : VALUE)
    (h1 : TYPE arg ≠ .T_NIL) (h2 : TYPE arg ≠ .T_FIXNUM) (h3 : TYPE arg ≠ .T_FLOAT) :
    quote_case self arg =
      match self.quote arg with
      | .string s => .ok ('\'' :: (cstr s ++ ['\'']), 2 + s.length)
      | x => .error (.TypeError (TYPE x) .T_STRING) := by
  unfold quote_case
  split
  · contradiction
  · contradiction
  · contradiction
  · cases hq : self.quote arg <;> simp [Check_Type, TYPE, RSTRING]

/-- Every fragment is a C string. -/
theorem quote_case_nonul {self : Driver} {arg : VALUE} {q : List Char} {l : Nat}
    (h : quote_case self arg = .ok (q, l)) : NUL ∉ q := by
  have hq : NUL ≠ '\'' := by decide
  by_cases h1 : TYPE arg = .T_NIL
  · cases arg <;> simp [TYPE] at h1
    simp [quote_case, TYPE] at h
    rw [← h.1]
    decide
  by_cases h2 : TYPE arg = .T_FIXNUM
  · cases arg <;> simp [TYPE] at h2
    simp [quote_case, TYPE, to_s, Check_Type, RSTRING] at h
    rw [← h.1]
    exact cstr_nonul _
  by_cases h3 : TYPE arg = .T_FLOAT
  · cases arg <;> simp [TYPE] at h3
    simp [quote_case, TYPE, to_s, Check_Type, RSTRING] at h
    rw [← h.1]
    exact cstr_nonul _
  rw [quote_case_default self arg h1 h2 h3] at h
  cases hv : self.quote arg <;> rw [hv] at h <;> simp at h
  rw [← h.1]
  have := cstr_nonul ‹List Char›
  simp [this, hq]

/-- The loop of the quoting pass only appends to what it was started with. -/
theorem quote_loop_acc (self : Driver) (args : List VALUE) :
    ∀ (quoted : List (List Char)) (len : Nat),
      quote_loop self args quoted len =
        match quote_loop self args [] 0 with
        | .error e => .error e
        | .ok (qs, l) => .ok (quoted ++ qs, len + l) := by
  induction args with
  | nil => intro quoted len; simp [quote_loop]
  | cons arg args ih =>
    intro quoted len
    simp only [quote_loop]
    rcases hc : quote_case self arg with e | ⟨q, l⟩
    · rfl
    · simp only [List.nil_append, Nat.zero_add]
      rw [ih (quoted ++ [q]) (len + l), ih [q] l]
      rcases quote_loop self args [] 0 with e | ⟨qs, l2⟩
      · rfl
      · simp [Nat.add_assoc]

/-- The quoting pass on a non-empty array: the first argument, then the rest. -/
theorem quote_params_cons (self : Driver) (arg : VALUE) (args : List VALUE) :
    rdo_driver_quote_params self (arg :: args) =
      match quote_case self arg with
      | .error e => .error e
      | .ok (q, l) =>
        match rdo_driver_quote_params self args with
        | .error e => .error e
        | .ok (qs, len) => .ok (q :: qs, l + len) := by
  unfold rdo_driver_quote_params
  simp only [quote_loop]
  rcases hc : quote_case self arg with e | ⟨q, l⟩
  · rfl
  · simp only [List.nil_append, Nat.zero_add]
    rw [quote_loop_acc]
    rcases quote_loop self args [] 0 with e | ⟨qs, l2⟩ <;> rfl

theorem quote_params_nil (self : Driver) :
    rdo_driver_quote_params self [] = .ok ([], 0) := rfl

/-- A successful quoting pass stores one C string per argument. -/
theorem quote_params_ok (self : Driver) :
    ∀ (args : List VALUE) (quoted : List (List Char)) (len : Nat),
      rdo_driver_quote_params self args = .ok (quoted, len) →
        quoted.length = args.length ∧ ∀ q ∈ quoted, NUL ∉ q := by
  intro args
  induction args with
  | nil =>
    intro quoted len h
    rw [quote_params_nil] at h
    cases h
    simp
  | cons arg args ih =>
    intro quoted len h
    rw [quote_params_cons] at h
    rcases hc : quote_case self arg with e | ⟨q, l⟩
    · rw [hc] at h
      cases h
    · rw [hc] at h
      rcases hr : rdo_driver_quote_params self args with e | ⟨qs, l2⟩
      · rw [hr] at h
        cases h
      · rw [hr] at h
        cases h
        have := ih qs l2 hr
        refine ⟨by simp [this.1], ?_⟩
        intro x hx
        rcases List.mem_cons.mp hx with rfl | hx
        · exact quote_case_nonul hc
        · exact this.2 x hx

/-! ## The buffer holds no terminator before the final one -/

theorem getD_nonul {Q : List (List Char)} (hQ : ∀ q ∈ Q, NUL ∉ q) (n : Nat) :
    NUL ∉ Q.getD n [] := by
  by_cases h : n < Q.length
  · rw [List.getD_eq_getElem Q [] h]
    exact hQ _ (List.getElem_mem h)
  · rw [List.getD_eq_default Q [] (by omega)]
    simp

/-- The body writes no NUL byte: it writes the current byte, a fragment, or a
lookahead byte it has just compared with a marker, dash, star or slash. -/
theorem body_nonul {Q : List (List Char)} (hQ : ∀ q ∈ Q, NUL ∉ q) (a : Nat) (c next : Char)
    (st : Scan) (hc : c ≠ NUL) (hb : NUL ∉ st.b) : NUL ∉ (body Q a c next st).1.b := by
  have hc2 : ¬ NUL = c := fun e => hc e.symm
  have hg := getD_nonul hQ st.n
  have e1 : NUL ≠ '?' := by decide
  have e2 : NUL ≠ '-' := by decide
  have e3 : NUL ≠ '*' := by decide
  have e4 : NUL ≠ '/' := by decide
  unfold body
  split_ifs
  · simp only [case_backslash, Scan.put]
    split_ifs with h
    · simp only [Bool.and_eq_true, beq_iff_eq] at h
      simp [hb, h.2, e1]
    · simp [hb, hc2]
  · simp only [case_marker, Scan.put]
    split_ifs
    · simp [hb, hc2]
    · simpa [hb] using hg
    · simp [hb, hc2]
  · simp only [case_dash, Scan.put]
    split_ifs with h
    · simp only [Bool.and_eq_true, beq_iff_eq] at h
      simp [hb, hc2, h.2, e2]
    · simp [hb, hc2]
  · simp [case_newline, Scan.put, hb, hc2]
  · simp only [case_slash, Scan.put]
    split_ifs with h
    · simp only [Bool.and_eq_true, beq_iff_eq] at h
      simp [hb, hc2, h.2, e3]
    · simp [hb, hc2]
  · simp only [case_star, Scan.put]
    split_ifs with h
    · simp only [Bool.and_eq_true, beq_iff_eq] at h
      simp [hb, hc2, h.2, e4]
    · simp [hb, hc2]
  · simp only [case_squote, Scan.put]
    split_ifs <;> simp [hb, hc2]
  · simp only [case_dquote, Scan.put]
    split_ifs <;> simp [hb, hc2]
  · simp [case_default, Scan.put, hb, hc2]

theorem loop_nonul {Q : List (List Char)} (hQ : ∀ q ∈ Q, NUL ∉ q) (a : Nat) :
    ∀ (s : List Char) (st : Scan), NUL ∉ s → NUL ∉ st.b → NUL ∉ (loop Q a s st).b := by
  intro s
  induction s using scan_induction with
  | h0 => intro st _ hb; simpa [loop] using hb
  | h1 c s ih1 ih2 =>
    intro st hs hb
    have hc : c ≠ NUL := fun e => hs (by simp [e])
    have hs1 : NUL ∉ s := fun e => hs (by simp [e])
    have hs2 : NUL ∉ s.tail := fun e => hs1 (List.mem_of_mem_tail e)
    have hb1 := body_nonul hQ a c (s.headD NUL) st hc hb
    rw [loop_cons]
    cases (body Q a c (s.headD NUL) st).2
    · simpa using ih1 _ hs1 hb1
    · simpa using ih2 _ hs2 hb1

/-- The result of `rdo_driver_interpolate` once the quoting pass has
succeeded: `rb_str_new2(buffer)` returns every byte the scan wrote. -/
theorem interpolate_of_quoted {self : Driver} {params : List VALUE} {Q : List (List Char)}
    {L : Nat} (hq : rdo_driver_quote_params self params = .ok (Q, L)) (stmt : List Char) :
    rdo_driver_interpolate self stmt params =
      if (loop Q params.length (cstr stmt) Scan.init).n = params.length then
        .ok (loop Q params.length (cstr stmt) Scan.init).b
      else
        .error (.ArgumentError params.length (loop Q params.length (cstr stmt) Scan.init).n
          (cstr stmt)) := by
  have hQ := (quote_params_ok self params Q L hq).2
  have hb : NUL ∉ (loop Q params.length (cstr stmt) Scan.init).b :=
    loop_nonul hQ _ _ _ (cstr_nonul stmt) (by simp [Scan.init])
  unfold rdo_driver_interpolate
  simp only [hq, cstr_of_nonul hb]
  split_ifs <;> simp_all

/-- A failed quoting pass is the failure of the whole call. -/
theorem interpolate_of_quote_error {self : Driver} {params : List VALUE} {e : Error}
    (hq : rdo_driver_quote_params self params = .error e) (stmt : List Char) :
    rdo_driver_interpolate self stmt params = .error e := by
  unfold rdo_driver_interpolate
  simp only [hq]

/-- The common shape of the prefix laws: when scanning the bytes `X` from the
initial state writes `pre`, consumes the fragments `front` and leaves every
context variable as it was, the call on `X ++ rest` fails exactly when the call
on `rest` with the remaining parameters fails, and otherwise returns `pre`
followed by that call's result. -/
theorem interpolate_after_prefix {self : Driver} {params ps : List VALUE}
    (front : List (List Char)) {Q : List (List Char)} {L L2 : Nat} (X pre rest : List Char)
    (hq : rdo_driver_quote_params self params = .ok (front ++ Q, L))
    (hq2 : rdo_driver_quote_params self ps = .ok (Q, L2))
    (hX : NUL ∉ X)
    (hscan : ∀ s, loop (front ++ Q) params.length (X ++ s) Scan.init =
      loop (front ++ Q) params.length s (Scan.init.shift pre front.length)) :
    ((∃ e, rdo_driver_interpolate self (X ++ rest) params = .error e) ↔
        (∃ e, rdo_driver_interpolate self rest ps = .error e)) ∧
      ∀ t, rdo_driver_interpolate self rest ps = .ok t →
        rdo_driver_interpolate self (X ++ rest) params = .ok (pre ++ t) := by
  have hl1 := (quote_params_ok self params _ L hq).1
  have hl2 := (quote_params_ok self ps _ L2 hq2).1
  have hlen : params.length = ps.length + front.length := by
    rw [← hl1, ← hl2, List.length_append]
    omega
  rw [interpolate_of_quoted hq, interpolate_of_quoted hq2, cstr_append hX, hscan, hlen,
    loop_shift]
  simp only [Scan.shift, Nat.add_right_cancel_iff]
  by_cases hn : (loop Q ps.length (cstr rest) Scan.init).n = ps.length
  · simp [hn]
  · simp [hn]

/-! ## Scanning outside quotes and comments -/

theorem Scan.init_eq_normal : Scan.init = Scan.normal [] 0 := rfl

theorem Scan.shift_init (pre : List Char) (k : Nat) :
    Scan.init.shift pre k = Scan.normal pre k := by
  simp [Scan.init, Scan.shift, Scan.normal]

/-- The body outside every quote and comment, at a byte that opens nothing. -/
theorem body_normal (Q : List (List Char)) (a : Nat) (c next : Char) (b : List Char) (n : Nat)
    (h1 : c ≠ '\\') (h2 : c ≠ '\'') (h3 : c ≠ '"') (h4 : ¬ (c = '-' ∧ next = '-'))
    (h5 : ¬ (c = '/' ∧ next = '*')) :
    body Q a c next (Scan.normal b n) =
      (Scan.normal (b ++ fill Q a [c] n) (n + [c].count '?'), false) := by
  by_cases g2 : c = '?'
  · subst g2
    simp only [body, case_marker, Scan.normal, Scan.put, fill]
    split_ifs <;> simp_all
  have g2b : ¬ '?' = c := fun e => g2 e.symm
  by_cases g3 : c = '-'
  · subst g3
    have : next ≠ '-' := fun e => h4 ⟨rfl, e⟩
    simp [body, case_dash, Scan.normal, Scan.put, fill, this]
  by_cases g4 : c = '\r' ∨ c = '\n'
  · simp [body, h1, g2, g3, g4, case_newline, Scan.normal, Scan.put, fill, g2b]
  by_cases g5 : c = '/'
  · subst g5
    have : next ≠ '*' := fun e => h5 ⟨rfl, e⟩
    simp [body, case_slash, Scan.normal, Scan.put, fill, this]
  by_cases g6 : c = '*'
  · subst g6
    simp [body, case_star, Scan.normal, Scan.put, fill]
  simp [body, h1, h2, h3, g2, g3, g4, g5, g6, case_default, Scan.normal, Scan.put, fill, g2b]

theorem unquoted_tail {c : Char} {t : List Char} (h : Unquoted (c :: t)) : Unquoted t := by
  obtain ⟨h1, h2, h3, h4, h5⟩ := h
  refine ⟨fun e => h1 (by simp [e]), fun e => h2 (by simp [e]), fun e => h3 (by simp [e]),
    fun e => h4 (List.infix_cons e), fun e => h5 (List.infix_cons e)⟩

theorem unquoted_head {c : Char} {t : List Char} (h : Unquoted (c :: t)) :
    c ≠ '\\' ∧ c ≠ '\'' ∧ c ≠ '"' := by
  obtain ⟨h1, h2, h3, _, _⟩ := h
  refine ⟨fun e => h1 (by simp [e]), fun e => h2 (by simp [e]), fun e => h3 (by simp [e])⟩

theorem unquoted_pair {c d : Char} {t : List Char} (h : Unquoted (c :: d :: t)) :
    ¬ (c = '-' ∧ d = '-') ∧ ¬ (c = '/' ∧ d = '*') := by
  obtain ⟨_, _, _, h4, h5⟩ := h
  constructor
  · rintro ⟨rfl, rfl⟩
    exact h4 ⟨[], t, rfl⟩
  · rintro ⟨rfl, rfl⟩
    exact h5 ⟨[], t, rfl⟩

theorem fill_cons (Q : List (List Char)) (a : Nat) (c : Char) (t : List Char) (n : Nat) :
    fill Q a (c :: t) n = fill Q a [c] n ++ fill Q a t (n + [c].count '?') := by
  by_cases h : c = '?'
  · subst h
    simp [fill]
  · have : ¬ '?' = c := fun e => h e.symm
    simp [fill, h, this]

/-- Scanning `Unquoted` text outside every quote and comment: the context is
unchanged, every marker is counted, and `fill` is written.  The byte after the
text must not complete a comment opener begun by its last byte. -/
theorem loop_unquoted (Q : List (List Char)) (a : Nat) :
    ∀ (t : List Char), Unquoted t → ∀ (s b : List Char) (n : Nat),
      s.headD NUL ≠ '-' → s.headD NUL ≠ '*' →
      loop Q a (t ++ s) (Scan.normal b n) =
        loop Q a s (Scan.normal (b ++ fill Q a t n) (n + t.count '?')) := by
  intro t
  induction t with
  | nil => intro _ s b n _ _; simp [fill]
  | cons c t ih =>
    intro ht s b n hs1 hs2
    obtain ⟨h1, h2, h3⟩ := unquoted_head ht
    have hnext : ¬ (c = '-' ∧ (t ++ s).headD NUL = '-') ∧
        ¬ (c = '/' ∧ (t ++ s).headD NUL = '*') := by
      cases t with
      | nil => exact ⟨fun e => hs1 (by simpa using e.2), fun e => hs2 (by simpa using e.2)⟩
      | cons d t => simpa using unquoted_pair ht
    rw [List.cons_append, loop_cons, body_normal Q a c _ b n h1 h2 h3 hnext.1 hnext.2]
    simp only [Bool.false_eq_true, if_false]
    have hc : List.count '?' (c :: t) = [c].count '?' + t.count '?' := by
      simp [List.count_cons, Nat.add_comm]
    rw [ih (unquoted_tail ht) s _ _ hs1 hs2, fill_cons Q a c t n, hc, List.append_assoc,
      Nat.add_assoc]

theorem fill_plain (Q : List (List Char)) (a : Nat) :
    ∀ (p : List Char) (n : Nat), '?' ∉ p → fill Q a p n = p := by
  intro p
  induction p with
  | nil => intro n _; rfl
  | cons c p ih =>
    intro n h
    have hc : c ≠ '?' := fun e => h (by simp [e])
    have hp : '?' ∉ p := fun e => h (by simp [e])
    simp [fill, hc, ih n hp]

/-- Scanning a plain prefix from the initial context copies it. -/
theorem loop_plain (Q : List (List Char)) (a : Nat) (p s b : List Char) (n : Nat)
    (hp : Plain p) (hs1 : s.headD NUL ≠ '-') (hs2 : s.headD NUL ≠ '*') :
    loop Q a (p ++ s) (Scan.normal b n) = loop Q a s (Scan.normal (b ++ p) n) := by
  rw [loop_unquoted Q a p hp.2 s b n hs1 hs2, fill_plain Q a p n hp.1,
    List.count_eq_zero_of_not_mem hp.1]
  rfl

/-! ## Substitution at a marker -/

/-- C1: for a template `p ++ "?" ++ rest` without NUL bytes whose prefix `p` is
plain, a first parameter `v` with fragment `qv` and further parameters `ps` for
which quoting succeeds, `interpolate (p ++ "?" ++ rest) (v :: ps)` fails exactly
when `interpolate rest ps` fails, and otherwise is `p ++ qv` followed by the
result of `interpolate rest ps`: the fragment is copied verbatim and the
remainder is scanned as if the fragment were not there. -/
theorem interpolate_marker_after_plain (self : Driver) (p rest : List Char) (v : VALUE)
    (ps : List VALUE) (qv : List Char) (lv : Nat) (Q : List (List Char)) (L : Nat)
    (hp : Plain p) (hnul : NUL ∉ p ++ '?' :: rest)
    (hv : quote_case self v = .ok (qv, lv))
    (hps : rdo_driver_quote_params self ps = .ok (Q, L)) :
    ((∃ e, rdo_driver_interpolate self (p ++ '?' :: rest) (v :: ps) = .error e) ↔
        (∃ e, rdo_driver_interpolate self rest ps = .error e)) ∧
      ∀ t, rdo_driver_interpolate self rest ps = .ok t →
        rdo_driver_interpolate self (p ++ '?' :: rest) (v :: ps) = .ok (p ++ qv ++ t) := by
  have hq : rdo_driver_quote_params self (v :: ps) = .ok ([qv] ++ Q, lv + L) := by
    rw [quote_params_cons, hv, hps]
    rfl
  have hX : NUL ∉ p ++ ['?'] := by
    intro e
    apply hnul
    simp only [List.mem_append, List.mem_cons, List.mem_singleton] at e ⊢
    tauto
  have hscan : ∀ s, loop ([qv] ++ Q) (v :: ps).length ((p ++ ['?']) ++ s) Scan.init =
      loop ([qv] ++ Q) (v :: ps).length s (Scan.init.shift (p ++ qv) [qv].length) := by
    intro s
    have e1 : ('?' :: s).headD NUL ≠ '-' := by simp
    have e2 : ('?' :: s).headD NUL ≠ '*' := by simp
    have e3 : (p ++ ['?']) ++ s = p ++ '?' :: s := by simp
    rw [e3, Scan.shift_init, Scan.init_eq_normal, loop_plain _ _ p ('?' :: s) [] 0 hp e1 e2,
      loop_cons, body_normal _ _ '?' _ _ _ (by decide) (by decide) (by decide) (by simp) (by simp)]
    simp [fill, Scan.normal]
  have key := interpolate_after_prefix [qv] (p ++ ['?']) (p ++ qv) rest hq hps hX hscan
  simpa [List.append_assoc] using key

/-- C1 at the spec's example `SELECT * FROM t WHERE id = ?` with `[5]`. -/
theorem interpolate_marker_after_plain_witness :
    rdo_driver_interpolate ⟨id⟩ "SELECT * FROM t WHERE id = ?".toList [.fixnum 5 (by decide)] =
      .ok "SELECT * FROM t WHERE id = 5".toList :=
  (interpolate_marker_after_plain ⟨id⟩ "SELECT * FROM t WHERE id = ".toList [] (.fixnum 5 (by decide)) []
    ['5'] 1 [] 0 (by decide) (by decide) rfl rfl).2 [] rfl

/-! ## Templates without quotes and comments -/

theorem reference_cons_marker (t : List Char) (f : List Char) (fs : List (List Char)) :
    interpolate_reference ('?' :: t) (f :: fs) = f ++ interpolate_reference t fs := by
  simp [interpolate_reference, List.splitOn, List.splitOnP_cons]

theorem reference_cons_other (c : Char) (hc : c ≠ '?') (t : List Char) (fs : List (List Char)) :
    interpolate_reference (c :: t) fs = c :: interpolate_reference t fs := by
  simp only [interpolate_reference, List.splitOn, List.splitOnP_cons]
  have hne := List.splitOnP_ne_nil (fun x => x == '?') t
  rcases hsp : List.splitOnP (fun x => x == '?') t with _ | ⟨piece, pieces⟩
  · exact absurd hsp hne
  · cases fs <;> simp [hc, List.modifyHead]

/-- With as many fragments left as markers, what the scan writes is the
reference result. -/
theorem fill_eq_reference (Q : List (List Char)) :
    ∀ (t : List Char) (n : Nat), t.count '?' + n = Q.length →
      fill Q Q.length t n = interpolate_reference t (Q.drop n) := by
  intro t
  induction t with
  | nil =>
    intro n h
    have : Q.drop n = [] := by
      apply List.drop_eq_nil_of_le
      simp at h
      omega
    simp [fill, this, interpolate_reference, List.splitOn]
  | cons c t ih =>
    intro n h
    by_cases hc : c = '?'
    · subst hc
      have hn : n < Q.length := by
        simp at h
        omega
      have h2 : t.count '?' + (n + 1) = Q.length := by
        simp at h
        omega
      rw [List.drop_eq_getElem_cons hn, reference_cons_marker, ← ih (n + 1) h2]
      simp [fill, hn, List.getD_eq_getElem Q [] hn]
    · have h2 : t.count '?' + n = Q.length := by
        rw [List.count_cons_of_ne (fun e => hc e.symm)] at h
        exact h
      rw [reference_cons_other c hc, ← ih n h2]
      simp [fill, hc]

/-- The whole scan of an `Unquoted` C string: every marker is eligible. -/
theorem loop_unquoted_all (Q : List (List Char)) (a : Nat) (t : List Char) (ht : Unquoted t) :
    loop Q a t Scan.init = Scan.normal (fill Q a t 0) (t.count '?') := by
  have h := loop_unquoted Q a t ht [] [] 0 (by decide) (by decide)
  simpa [loop, Scan.init_eq_normal] using h

/-- The result on an `Unquoted` template without NUL bytes. -/
theorem interpolate_unquoted {self : Driver} {params : List VALUE} {Q : List (List Char)}
    {L : Nat} (hq : rdo_driver_quote_params self params = .ok (Q, L)) (t : List Char)
    (ht : Unquoted t) (hnul : NUL ∉ t) :
    rdo_driver_interpolate self t params =
      if t.count '?' = params.length then .ok (fill Q params.length t 0)
      else .error (.ArgumentError params.length (t.count '?') t) := by
  rw [interpolate_of_quoted hq, cstr_of_nonul hnul, loop_unquoted_all Q _ t ht]
  rfl

/-- C2 (amended): for every template without NUL bytes that contains none of
the characters backslash, single quote and double quote and neither of the
substrings `--` and `/*`, and every parameter list whose length is the number
of `?` in the template and whose quoting succeeds with fragments `Q`,
`interpolate` succeeds and returns the reference result: the template split at
every `?`, the i-th `?` replaced by the i-th fragment. -/
theorem interpolate_unquoted_eq_reference (self : Driver) (template : List Char)
    (params : List VALUE) (Q : List (List Char)) (L : Nat)
    (ht : Unquoted template) (hnul : NUL ∉ template)
    (hcount : template.count '?' = params.length)
    (hq : rdo_driver_quote_params self params = .ok (Q, L)) :
    rdo_driver_interpolate self template params = .ok (interpolate_reference template Q) := by
  have hl := (quote_params_ok self params Q L hq).1
  rw [interpolate_unquoted hq template ht hnul, if_pos hcount, ← hl,
    fill_eq_reference Q template 0 (by omega)]
  rfl

/-- C2 (amended) at `SELECT ?, ? FROM t` with `[nil, 7]`. -/
theorem interpolate_unquoted_eq_reference_witness :
    rdo_driver_interpolate ⟨id⟩ "SELECT ?, ? FROM t".toList [.nil, .fixnum 7 (by decide)] =
      .ok "SELECT NULL, 7 FROM t".toList :=
  interpolate_unquoted_eq_reference ⟨id⟩ "SELECT ?, ? FROM t".toList [.nil, .fixnum 7 (by decide)]
    ["NULL".toList, ['7']] 5 (by decide) (by decide) (by decide) rfl

/-- C2 as stated fails on a template with a NUL byte: the template `a\0?` is
free of quotes and comments and has one `?`, one parameter is given and its
quoting succeeds, yet the scan stops at the NUL byte, resolves no marker and
the call raises the mismatch error instead of returning the reference result. -/
theorem interpolate_unquoted_eq_reference_counterexample :
    Unquoted ['a', NUL, '?'] ∧
      ['a', NUL, '?'].count '?' = [VALUE.fixnum 1 (by decide)].length ∧
      rdo_driver_quote_params ⟨id⟩ [.fixnum 1 (by decide)] = .ok ([['1']], 1) ∧
      interpolate_reference ['a', NUL, '?'] [['1']] = ['a', NUL, '1'] ∧
      rdo_driver_interpolate ⟨id⟩ ['a', NUL, '?'] [.fixnum 1 (by decide)] =
        .error (.ArgumentError 1 0 ['a']) :=
  ⟨by decide, by decide, rfl, by decide, rfl⟩

/-- C3 (amended): for every template without NUL bytes that contains none of
the characters backslash, single quote and double quote and neither of the
substrings `--` and `/*`, and every parameter list whose quoting succeeds,
`interpolate` fails if and only if the number of `?` in the template differs
from the number of parameters; every failure is the mismatch error, it carries
the parameter count, the number of `?` and the template, and no text is
returned with it. -/
theorem interpolate_unquoted_mismatch (self : Driver) (template : List Char)
    (params : List VALUE) (Q : List (List Char)) (L : Nat)
    (ht : Unquoted template) (hnul : NUL ∉ template)
    (hq : rdo_driver_quote_params self params = .ok (Q, L)) :
    ((∃ e, rdo_driver_interpolate self template params = .error e) ↔
        template.count '?' ≠ params.length) ∧
      (rdo_driver_interpolate self template params =
          .error (.ArgumentError params.length (template.count '?') template) ↔
        template.count '?' ≠ params.length) ∧
      ∀ e, rdo_driver_interpolate self template params = .error e →
        e = .ArgumentError params.length (template.count '?') template := by
  rw [interpolate_unquoted hq template ht hnul]
  by_cases h : template.count '?' = params.length
  · simp [h]
  · simp only [if_neg h]
    refine ⟨by simp [h], by simp [h], ?_⟩
    intro e he
    cases he
    rfl

/-- C3 (amended) at the two examples of the spec: two markers with one
parameter, and one marker with two parameters. -/
theorem interpolate_unquoted_mismatch_witness :
    rdo_driver_interpolate ⟨id⟩ "SELECT ?, ?".toList [.fixnum 1 (by decide)] =
        .error (.ArgumentError 1 2 "SELECT ?, ?".toList) ∧
      rdo_driver_interpolate ⟨id⟩ "SELECT ?".toList [.fixnum 1 (by decide), .fixnum 2 (by decide)] =
        .error (.ArgumentError 2 1 "SELECT ?".toList) :=
  ⟨(interpolate_unquoted_mismatch ⟨id⟩ "SELECT ?, ?".toList [.fixnum 1 (by decide)] [['1']] 1
      (by decide) (by decide) rfl).2.1.mpr (by decide),
    (interpolate_unquoted_mismatch ⟨id⟩ "SELECT ?".toList [.fixnum 1 (by decide), .fixnum 2 (by decide)]
      [['1'], ['2']] 2 (by decide) (by decide) rfl).2.1.mpr (by decide)⟩

/-- C3 as stated fails on a template with a NUL byte: `?\0?` is free of quotes
and comments and has two `?` for one parameter, yet the scan stops at the NUL
byte after one marker and the call succeeds. -/
theorem interpolate_unquoted_mismatch_counterexample :
    Unquoted ['?', NUL, '?'] ∧
      ['?', NUL, '?'].count '?' ≠ [VALUE.fixnum 1 (by decide)].length ∧
      rdo_driver_quote_params ⟨id⟩ [.fixnum 1 (by decide)] = .ok ([['1']], 1) ∧
      rdo_driver_interpolate ⟨id⟩ ['?', NUL, '?'] [.fixnum 1 (by decide)] = .ok ['1'] :=
  ⟨by decide, by decide, rfl, rfl⟩

/-! ## Line comments -/

/-- The body inside a line comment, at a byte that does not end the line: the
byte is copied, together with the next one when the two are `--`. -/
theorem body_lineComment (Q : List (List Char)) (a : Nat) (x y : Char) (b : List Char) (n : Nat)
    (h1 : x ≠ '\r') (h2 : x ≠ '\n') :
    body Q a x y (Scan.lineComment b n) =
      if x = '-' ∧ y = '-' then (Scan.lineComment (b ++ [x, y]) n, true)
      else (Scan.lineComment (b ++ [x]) n, false) := by
  by_cases g1 : x = '\\'
  · subst g1
    simp [body, case_backslash, Scan.lineComment, Scan.put]
  by_cases g2 : x = '?'
  · subst g2
    simp [body, case_marker, Scan.lineComment, Scan.put]
  by_cases g3 : x = '-'
  · subst g3
    by_cases g : y = '-'
    · simp [body, case_dash, Scan.lineComment, Scan.put, g]
    · simp [body, case_dash, Scan.lineComment, Scan.put, g]
  by_cases g5 : x = '/'
  · subst g5
    simp [body, case_slash, Scan.lineComment, Scan.put]
  by_cases g6 : x = '*'
  · subst g6
    simp [body, case_star, Scan.lineComment, Scan.put]
  by_cases g7 : x = '\''
  · subst g7
    simp [body, case_squote, Scan.lineComment, Scan.put]
  by_cases g8 : x = '"'
  · subst g8
    simp [body, case_dquote, Scan.lineComment, Scan.put]
  simp [body, g1, g2, g3, h1, h2, g5, g6, g7, g8, case_default, Scan.lineComment, Scan.put]

/-- The body at the end of a line. -/
theorem body_newline (Q : List (List Char)) (a : Nat) (t y : Char) (st : Scan)
    (ht : t = '\r' ∨ t = '\n') :
    body Q a t y st = ({ st.put [t] with inslcmt := false }, false) := by
  rcases ht with rfl | rfl <;> simp [body, case_newline]

/-- Scanning a line comment up to and including the end of its line copies
it, resolves no marker and leaves the scanner outside every comment. -/
theorem loop_lineComment (Q : List (List Char)) (a : Nat) (t : Char) (s : List Char) (n : Nat)
    (ht : t = '\r' ∨ t = '\n') :
    ∀ (c b : List Char), '\r' ∉ c → '\n' ∉ c →
      loop Q a (c ++ t :: s) (Scan.lineComment b n) =
        loop Q a s (Scan.normal (b ++ c ++ [t]) n) := by
  have htd : t ≠ '-' := by
    rcases ht with rfl | rfl <;> decide
  intro c
  induction c using scan_induction with
  | h0 =>
    intro b _ _
    rw [List.nil_append, loop_cons, body_newline Q a t _ _ ht]
    simp [Scan.lineComment, Scan.normal, Scan.put]
  | h1 x c ih1 ih2 =>
    intro b hr hn
    have hx1 : x ≠ '\r' := fun e => hr (by simp [e])
    have hx2 : x ≠ '\n' := fun e => hn (by simp [e])
    have hr1 : '\r' ∉ c := fun e => hr (by simp [e])
    have hn1 : '\n' ∉ c := fun e => hn (by simp [e])
    rw [List.cons_append, loop_cons, body_lineComment Q a x _ b n hx1 hx2]
    by_cases g : x = '-' ∧ (c ++ t :: s).headD NUL = '-'
    · rw [if_pos g]
      cases c with
      | nil => exact absurd (by simpa using g.2) htd
      | cons y c =>
        have hy : y = '-' := by simpa using g.2
        have hr2 : '\r' ∉ c := fun e => hr1 (by simp [e])
        have hn2 : '\n' ∉ c := fun e => hn1 (by simp [e])
        have := ih2 (b ++ [x, y]) hr2 hn2
        simp only [List.tail_cons] at this
        simpa [hy] using this
    · rw [if_neg g]
      have := ih1 (b ++ [x]) hr1 hn1
      simpa using this

/-- C4 (amended): for every comment text `c` with no carriage-return, no
line-feed and no NUL byte, every terminator `t` that is a carriage-return or a
line-feed, every remainder and every parameter list whose quoting succeeds,
`interpolate ("--" ++ c ++ t ++ rest) params` fails exactly when
`interpolate rest params` fails, and otherwise is `"--" ++ c ++ t` followed by
the result of `interpolate rest params`: markers in the comment are copied and
consume no parameter. -/
theorem interpolate_line_comment (self : Driver) (c : List Char) (t : Char)
    (rest : List Char) (params : List VALUE) (Q : List (List Char)) (L : Nat)
    (hr : '\r' ∉ c) (hn : '\n' ∉ c) (hnul : NUL ∉ c) (ht : t = '\r' ∨ t = '\n')
    (hq : rdo_driver_quote_params self params = .ok (Q, L)) :
    ((∃ e, rdo_driver_interpolate self ('-' :: '-' :: (c ++ t :: rest)) params = .error e) ↔
        (∃ e, rdo_driver_interpolate self rest params = .error e)) ∧
      ∀ r, rdo_driver_interpolate self rest params = .ok r →
        rdo_driver_interpolate self ('-' :: '-' :: (c ++ t :: rest)) params =
          .ok ('-' :: '-' :: (c ++ t :: r)) := by
  have htn : NUL ≠ t := by
    rcases ht with rfl | rfl <;> decide
  have hX : NUL ∉ '-' :: '-' :: (c ++ [t]) := by
    have e1 : NUL ≠ '-' := by decide
    simp [hnul, htn, e1]
  have hscan : ∀ s, loop ([] ++ Q) params.length (('-' :: '-' :: (c ++ [t])) ++ s) Scan.init =
      loop ([] ++ Q) params.length s
        (Scan.init.shift ('-' :: '-' :: (c ++ [t])) ([] : List (List Char)).length) := by
    intro s
    have e3 : ('-' :: '-' :: (c ++ [t])) ++ s = '-' :: '-' :: (c ++ t :: s) := by simp
    have e4 : body ([] ++ Q) params.length '-' '-' Scan.init =
        (Scan.lineComment ['-', '-'] 0, true) := by
      simp [body, case_dash, Scan.init, Scan.put, Scan.lineComment]
    rw [e3, loop_cons, List.headD_cons, e4]
    simp only [if_true, List.tail_cons]
    rw [loop_lineComment _ _ t s 0 ht c _ hr hn, Scan.shift_init]
    simp
  have key := interpolate_after_prefix [] ('-' :: '-' :: (c ++ [t])) ('-' :: '-' :: (c ++ [t]))
    rest (by simpa using hq) hq hX hscan
  simpa using key

/-- C4 (amended) at the spec's example: a marker in a line comment, then a
marker that receives the parameter. -/
theorem interpolate_line_comment_witness :
    rdo_driver_interpolate ⟨id⟩ "-- ignore ?\nSELECT ?".toList [.fixnum 1 (by decide)] =
      .ok "-- ignore ?\nSELECT 1".toList :=
  (interpolate_line_comment ⟨id⟩ " ignore ?".toList '\n' "SELECT ?".toList [.fixnum 1 (by decide)]
    [['1']] 1 (by decide) (by decide) (by decide) (Or.inr rfl) rfl).2 "SELECT 1".toList rfl

/-- C4 as stated fails when the comment text holds a NUL byte: the comment
text `\0` has no carriage-return and no line-feed, `interpolate "?" [1]`
returns `1`, yet on `--\0\n?` the scan stops inside the comment and the call
raises the mismatch error. -/
theorem interpolate_line_comment_counterexample :
    '\r' ∉ [NUL] ∧ '\n' ∉ [NUL] ∧
      rdo_driver_quote_params ⟨id⟩ [.fixnum 1 (by decide)] = .ok ([['1']], 1) ∧
      rdo_driver_interpolate ⟨id⟩ ['?'] [.fixnum 1 (by decide)] = .ok ['1'] ∧
      rdo_driver_interpolate ⟨id⟩ ('-' :: '-' :: ([NUL] ++ '\n' :: ['?'])) [.fixnum 1 (by decide)] =
        .error (.ArgumentError 1 0 ['-', '-']) :=
  ⟨by decide, by decide, rfl, rfl, rfl⟩

/-! ## Block comments -/

/-- The body inside a block comment, at a byte other than `/` and `*`. -/
theorem body_blockComment (Q : List (List Char)) (a : Nat) (x y : Char) (b : List Char)
    (n : Nat) (k : Int) (hk : k ≠ 0) (h1 : x ≠ '/') (h2 : x ≠ '*') :
    body Q a x y (Scan.blockComment b n k) = (Scan.blockComment (b ++ [x]) n k, false) := by
  by_cases g1 : x = '\\'
  · subst g1
    simp [body, case_backslash, Scan.blockComment, Scan.put, hk]
  by_cases g2 : x = '?'
  · subst g2
    simp [body, case_marker, Scan.blockComment, Scan.put, hk]
  by_cases g3 : x = '-'
  · subst g3
    simp [body, case_dash, Scan.blockComment, Scan.put, hk]
  by_cases g4 : x = '\r' ∨ x = '\n'
  · simp [body, g1, g2, g3, g4, case_newline, Scan.blockComment, Scan.put]
  by_cases g7 : x = '\''
  · subst g7
    simp [body, case_squote, Scan.blockComment, Scan.put, hk]
  by_cases g8 : x = '"'
  · subst g8
    simp [body, case_dquote, Scan.blockComment, Scan.put, hk]
  simp [body, g1, g2, g3, g4, h1, h2, g7, g8, case_default, Scan.blockComment, Scan.put]

/-- The body at `/*` outside quotes and line comments: one level deeper. -/
theorem body_open (Q : List (List Char)) (a : Nat) (b : List Char) (n : Nat) (k : Int) :
    body Q a '/' '*' (Scan.blockComment b n k) =
      (Scan.blockComment (b ++ ['/', '*']) n (k + 1), true) := by
  simp [body, case_slash, Scan.blockComment, Scan.put]

/-- The body at `*/` inside a block comment: one level up. -/
theorem body_close (Q : List (List Char)) (a : Nat) (b : List Char) (n : Nat) (k : Int)
    (hk : k ≠ 0) :
    body Q a '*' '/' (Scan.blockComment b n k) =
      (Scan.blockComment (b ++ ['*', '/']) n (k - 1), true) := by
  simp [body, case_star, Scan.blockComment, Scan.put, hk]

/-- Scanning the contents of a block comment copies them and returns to the
depth at which they began. -/
theorem loop_commentItems (Q : List (List Char)) (a : Nat) (n : Nat) {items : List Char}
    (h : CommentItems items) :
    ∀ (s b : List Char) (k : Int), 0 < k →
      loop Q a (items ++ s) (Scan.blockComment b n k) =
        loop Q a s (Scan.blockComment (b ++ items) n k) := by
  induction h with
  | nil => intro s b k _; simp
  | char c t h1 h2 _ ih =>
    intro s b k hk
    rw [List.cons_append, loop_cons, body_blockComment Q a c _ b n k (by omega) h1 h2]
    simp only [Bool.false_eq_true, if_false]
    rw [ih s _ k hk]
    simp
  | nested inner t _ _ ih1 ih2 =>
    intro s b k hk
    have e1 : ('/' :: '*' :: (inner ++ '*' :: '/' :: t)) ++ s =
        '/' :: '*' :: (inner ++ '*' :: '/' :: (t ++ s)) := by simp
    rw [e1, loop_cons, List.headD_cons, body_open]
    simp only [if_true, List.tail_cons]
    rw [ih1 _ _ (k + 1) (by omega), loop_cons, List.headD_cons,
      body_close Q a _ n (k + 1) (by omega)]
    simp only [if_true, List.tail_cons]
    rw [Int.add_sub_cancel, ih2 s _ k hk]
    simp

/-- Scanning a well-nested block comment from outside every quote and
comment copies it and returns there. -/
theorem loop_blockComment (Q : List (List Char)) (a : Nat) (n : Nat) {C : List Char}
    (h : BlockComment C) (s b : List Char) :
    loop Q a (C ++ s) (Scan.normal b n) = loop Q a s (Scan.normal (b ++ C) n) := by
  cases h with
  | mk items hi =>
    have e1 : ('/' :: '*' :: (items ++ ['*', '/'])) ++ s =
        '/' :: '*' :: (items ++ '*' :: '/' :: s) := by simp
    have e2 : Scan.normal b n = Scan.blockComment b n 0 := rfl
    rw [e1, e2, loop_cons, List.headD_cons, body_open]
    simp only [if_true, List.tail_cons]
    rw [loop_commentItems Q a n hi _ _ (0 + 1) (by omega), loop_cons, List.headD_cons,
      body_close Q a _ n (0 + 1) (by omega)]
    simp [Scan.normal, Scan.blockComment]

/-- A run of characters other than `/` and `*` in front of comment contents. -/
theorem CommentItems.of_chars (l : List Char) (h : '/' ∉ l ∧ '*' ∉ l) {s : List Char}
    (hs : CommentItems s) : CommentItems (l ++ s) := by
  induction l with
  | nil => exact hs
  | cons c l ih =>
    have h1 : c ≠ '/' := fun e => h.1 (by simp [e])
    have h2 : c ≠ '*' := fun e => h.2 (by simp [e])
    exact CommentItems.char c _ h1 h2
      (ih ⟨fun e => h.1 (by simp [e]), fun e => h.2 (by simp [e])⟩)

/-- C5 (amended): for every well-nested block comment `C` without NUL bytes,
every remainder and every parameter list whose quoting succeeds,
`interpolate (C ++ rest) params` fails exactly when `interpolate rest params`
fails, and otherwise is `C` followed by the result of `interpolate rest
params`: markers at any nesting depth are copied and consume no parameter. -/
theorem interpolate_block_comment (self : Driver) (C rest : List Char) (params : List VALUE)
    (Q : List (List Char)) (L : Nat) (hC : BlockComment C) (hnul : NUL ∉ C)
    (hq : rdo_driver_quote_params self params = .ok (Q, L)) :
    ((∃ e, rdo_driver_interpolate self (C ++ rest) params = .error e) ↔
        (∃ e, rdo_driver_interpolate self rest params = .error e)) ∧
      ∀ r, rdo_driver_interpolate self rest params = .ok r →
        rdo_driver_interpolate self (C ++ rest) params = .ok (C ++ r) := by
  have hscan : ∀ s, loop ([] ++ Q) params.length (C ++ s) Scan.init =
      loop ([] ++ Q) params.length s (Scan.init.shift C ([] : List (List Char)).length) := by
    intro s
    rw [Scan.shift_init, Scan.init_eq_normal, loop_blockComment _ _ 0 hC s []]
    simp
  exact interpolate_after_prefix [] C C rest (by simpa using hq) hq hnul hscan

/-- C5 (amended) at the spec's example: the marker inside the nested comment
stays, the marker after the comment becomes `7`. -/
theorem interpolate_block_comment_witness :
    rdo_driver_interpolate ⟨id⟩ "/* outer /* inner ? */ still */ SELECT ?".toList [.fixnum 7 (by decide)] =
      .ok "/* outer /* inner ? */ still */ SELECT 7".toList :=
  (interpolate_block_comment ⟨id⟩ "/* outer /* inner ? */ still */".toList " SELECT ?".toList
    [.fixnum 7 (by decide)] [['7']] 1
    (BlockComment.mk " outer /* inner ? */ still ".toList
      (CommentItems.of_chars " outer ".toList (by decide)
        (CommentItems.nested " inner ? ".toList " still ".toList
          (CommentItems.of_chars " inner ? ".toList (by decide) CommentItems.nil)
          (CommentItems.of_chars " still ".toList (by decide) CommentItems.nil))))
    (by decide) rfl).2 " SELECT 7".toList rfl

/-- C5 as stated fails when the comment holds a NUL byte: `/*\0*/` is a
well-nested block comment, `interpolate "?" [1]` returns `1`, yet on
`/*\0*/?` the scan stops inside the comment and the call raises the mismatch
error. -/
theorem interpolate_block_comment_counterexample :
    BlockComment ('/' :: '*' :: ([NUL] ++ ['*', '/'])) ∧
      rdo_driver_quote_params ⟨id⟩ [.fixnum 1 (by decide)] = .ok ([['1']], 1) ∧
      rdo_driver_interpolate ⟨id⟩ ['?'] [.fixnum 1 (by decide)] = .ok ['1'] ∧
      rdo_driver_interpolate ⟨id⟩ (('/' :: '*' :: ([NUL] ++ ['*', '/'])) ++ ['?']) [.fixnum 1 (by decide)] =
        .error (.ArgumentError 1 0 ['/', '*']) :=
  ⟨BlockComment.mk [NUL] (CommentItems.char NUL [] (by decide) (by decide) CommentItems.nil),
    rfl, rfl, rfl⟩

/-! ## Escaped markers -/

/-- C6 (amended): for every plain prefix `p` without NUL bytes, every
remainder and every parameter list whose quoting succeeds (the empty list
included), `interpolate (p ++ "\\?" ++ rest) params` fails exactly when
`interpolate rest params` fails, and otherwise is `p ++ "?"` followed by the
result of `interpolate rest params`: the backslash is dropped, the marker is
copied and not counted. -/
theorem interpolate_escaped_marker (self : Driver) (p rest : List Char) (params : List VALUE)
    (Q : List (List Char)) (L : Nat) (hp : Plain p) (hnul : NUL ∉ p)
    (hq : rdo_driver_quote_params self params = .ok (Q, L)) :
    ((∃ e, rdo_driver_interpolate self (p ++ '\\' :: '?' :: rest) params = .error e) ↔
        (∃ e, rdo_driver_interpolate self rest params = .error e)) ∧
      ∀ r, rdo_driver_interpolate self rest params = .ok r →
        rdo_driver_interpolate self (p ++ '\\' :: '?' :: rest) params =
          .ok (p ++ '?' :: r) := by
  have hX : NUL ∉ p ++ ['\\', '?'] := by
    have e1 : NUL ≠ '\\' := by decide
    have e2 : NUL ≠ '?' := by decide
    simp [hnul, e1, e2]
  have hscan : ∀ s, loop ([] ++ Q) params.length ((p ++ ['\\', '?']) ++ s) Scan.init =
      loop ([] ++ Q) params.length s
        (Scan.init.shift (p ++ ['?']) ([] : List (List Char)).length) := by
    intro s
    have e1 : ('\\' :: '?' :: s).headD NUL ≠ '-' := by simp
    have e2 : ('\\' :: '?' :: s).headD NUL ≠ '*' := by simp
    have e3 : (p ++ ['\\', '?']) ++ s = p ++ '\\' :: '?' :: s := by simp
    have e4 : body ([] ++ Q) params.length '\\' '?' (Scan.normal ([] ++ p) 0) =
        (Scan.normal (p ++ ['?']) 0, true) := by
      simp [body, case_backslash, Scan.normal, Scan.put]
    rw [e3, Scan.shift_init, Scan.init_eq_normal,
      loop_plain _ _ p ('\\' :: '?' :: s) [] 0 hp e1 e2, loop_cons, List.headD_cons, e4]
    simp
  have key := interpolate_after_prefix [] (p ++ ['\\', '?']) (p ++ ['?']) rest
    (by simpa using hq) hq hX hscan
  simpa using key

/-- C6 (amended) at the spec's example: the escaped marker stays a `?`, the
next marker becomes `9`. -/
theorem interpolate_escaped_marker_witness :
    rdo_driver_interpolate ⟨id⟩ "SELECT \\?, ?".toList [.fixnum 9 (by decide)] =
      .ok "SELECT ?, 9".toList :=
  (interpolate_escaped_marker ⟨id⟩ "SELECT ".toList ", ?".toList [.fixnum 9 (by decide)] [['9']] 1
    (by decide) (by decide) rfl).2 ", 9".toList rfl

/-- C6 as stated fails when the plain prefix holds a NUL byte: the prefix
`\0` is plain, `interpolate "?" [1]` returns `1`, yet on `\0\\??` the scan
stops at once and the call raises the mismatch error. -/
theorem interpolate_escaped_marker_counterexample :
    Plain [NUL] ∧
      rdo_driver_quote_params ⟨id⟩ [.fixnum 1 (by decide)] = .ok ([['1']], 1) ∧
      rdo_driver_interpolate ⟨id⟩ ['?'] [.fixnum 1 (by decide)] = .ok ['1'] ∧
      rdo_driver_interpolate ⟨id⟩ ([NUL] ++ '\\' :: '?' :: ['?']) [.fixnum 1 (by decide)] =
        .error (.ArgumentError 1 0 []) :=
  ⟨by decide, rfl, rfl, rfl⟩

/-! ## Quoted literals -/

/-- The body inside a single-quoted literal, at a byte other than `'`. -/
theorem body_singleQuoted (Q : List (List Char)) (a : Nat) (x y : Char) (b : List Char)
    (n : Nat) (h : x ≠ '\'') :
    body Q a x y (Scan.singleQuoted b n) = (Scan.singleQuoted (b ++ [x]) n, false) := by
  by_cases g1 : x = '\\'
  · subst g1
    simp [body, case_backslash, Scan.singleQuoted, Scan.put]
  by_cases g2 : x = '?'
  · subst g2
    simp [body, case_marker, Scan.singleQuoted, Scan.put]
  by_cases g3 : x = '-'
  · subst g3
    simp [body, case_dash, Scan.singleQuoted, Scan.put]
  by_cases g4 : x = '\r' ∨ x = '\n'
  · simp [body, g1, g2, g3, g4, case_newline, Scan.singleQuoted, Scan.put]
  by_cases g5 : x = '/'
  · subst g5
    simp [body, case_slash, Scan.singleQuoted, Scan.put]
  by_cases g6 : x = '*'
  · subst g6
    simp [body, case_star, Scan.singleQuoted, Scan.put]
  by_cases g8 : x = '"'
  · subst g8
    simp [body, case_dquote, Scan.singleQuoted, Scan.put]
  simp [body, g1, g2, g3, g4, g5, g6, h, g8, case_default, Scan.singleQuoted, Scan.put]

/-- The body inside a double-quoted literal, at a byte other than `"`. -/
theorem body_doubleQuoted (Q : List (List Char)) (a : Nat) (x y : Char) (b : List Char)
    (n : Nat) (h : x ≠ '"') :
    body Q a x y (Scan.doubleQuoted b n) = (Scan.doubleQuoted (b ++ [x]) n, false) := by
  by_cases g1 : x = '\\'
  · subst g1
    simp [body, case_backslash, Scan.doubleQuoted, Scan.put]
  by_cases g2 : x = '?'
  · subst g2
    simp [body, case_marker, Scan.doubleQuoted, Scan.put]
  by_cases g3 : x = '-'
  · subst g3
    simp [body, case_dash, Scan.doubleQuoted, Scan.put]
  by_cases g4 : x = '\r' ∨ x = '\n'
  · simp [body, g1, g2, g3, g4, case_newline, Scan.doubleQuoted, Scan.put]
  by_cases g5 : x = '/'
  · subst g5
    simp [body, case_slash, Scan.doubleQuoted, Scan.put]
  by_cases g6 : x = '*'
  · subst g6
    simp [body, case_star, Scan.doubleQuoted, Scan.put]
  by_cases g7 : x = '\''
  · subst g7
    simp [body, case_squote, Scan.doubleQuoted, Scan.put]
  simp [body, g1, g2, g3, g4, g5, g6, g7, h, case_default, Scan.doubleQuoted, Scan.put]

/-- Scanning a single-quoted literal from outside every quote and comment
copies it and returns there. -/
theorem loop_singleQuoted (Q : List (List Char)) (a : Nat) (n : Nat) (s : List Char) :
    ∀ (c b : List Char), '\'' ∉ c →
      loop Q a (c ++ '\'' :: s) (Scan.singleQuoted b n) =
        loop Q a s (Scan.normal (b ++ c ++ ['\'']) n) := by
  intro c
  induction c with
  | nil =>
    intro b _
    rw [List.nil_append, loop_cons]
    simp [body, case_squote, Scan.singleQuoted, Scan.normal, Scan.put]
  | cons x c ih =>
    intro b h
    have hx : x ≠ '\'' := fun e => h (by simp [e])
    have hc : '\'' ∉ c := fun e => h (by simp [e])
    rw [List.cons_append, loop_cons, body_singleQuoted Q a x _ b n hx]
    simp only [Bool.false_eq_true, if_false]
    rw [ih _ hc]
    simp

/-- Scanning a double-quoted literal from outside every quote and comment
copies it and returns there. -/
theorem loop_doubleQuoted (Q : List (List Char)) (a : Nat) (n : Nat) (s : List Char) :
    ∀ (c b : List Char), '"' ∉ c →
      loop Q a (c ++ '"' :: s) (Scan.doubleQuoted b n) =
        loop Q a s (Scan.normal (b ++ c ++ ['"']) n) := by
  intro c
  induction c with
  | nil =>
    intro b _
    rw [List.nil_append, loop_cons]
    simp [body, case_dquote, Scan.doubleQuoted, Scan.normal, Scan.put]
  | cons x c ih =>
    intro b h
    have hx : x ≠ '"' := fun e => h (by simp [e])
    have hc : '"' ∉ c := fun e => h (by simp [e])
    rw [List.cons_append, loop_cons, body_doubleQuoted Q a x _ b n hx]
    simp only [Bool.false_eq_true, if_false]
    rw [ih _ hc]
    simp

/-- A quoted literal in front of any text, scanned from the initial state. -/
theorem loop_quoted (Q : List (List Char)) (a : Nat) (q : Char) (hq : q = '\'' ∨ q = '"')
    (c : List Char) (hc : q ∉ c) (s : List Char) :
    loop Q a (q :: (c ++ q :: s)) Scan.init = loop Q a s (Scan.normal (q :: (c ++ [q])) 0) := by
  rcases hq with rfl | rfl
  · have e : body Q a '\'' ((c ++ '\'' :: s).headD NUL) Scan.init =
        (Scan.singleQuoted ['\''] 0, false) := by
      simp [body, case_squote, Scan.init, Scan.singleQuoted, Scan.put]
    rw [loop_cons, e]
    simp only [Bool.false_eq_true, if_false]
    rw [loop_singleQuoted Q a 0 s c _ hc]
    simp
  · have e : body Q a '"' ((c ++ '"' :: s).headD NUL) Scan.init =
        (Scan.doubleQuoted ['"'] 0, false) := by
      simp [body, case_dquote, Scan.init, Scan.doubleQuoted, Scan.put]
    rw [loop_cons, e]
    simp only [Bool.false_eq_true, if_false]
    rw [loop_doubleQuoted Q a 0 s c _ hc]
    simp

/-- C7 (amended): for each quote character `q` (single or double), every text
`c` that contains neither `q` nor a NUL byte, every remainder and every
parameter list whose quoting succeeds, `interpolate (q ++ c ++ q ++ rest)
params` fails exactly when `interpolate rest params` fails, and otherwise is
`q ++ c ++ q` followed by the result of `interpolate rest params`: a marker in
the literal is copied and not counted. -/
theorem interpolate_quoted_literal (self : Driver) (q : Char) (c rest : List Char)
    (params : List VALUE) (Q : List (List Char)) (L : Nat)
    (hquote : q = '\'' ∨ q = '"') (hc : q ∉ c) (hnul : NUL ∉ c)
    (hq : rdo_driver_quote_params self params = .ok (Q, L)) :
    ((∃ e, rdo_driver_interpolate self (q :: (c ++ q :: rest)) params = .error e) ↔
        (∃ e, rdo_driver_interpolate self rest params = .error e)) ∧
      ∀ r, rdo_driver_interpolate self rest params = .ok r →
        rdo_driver_interpolate self (q :: (c ++ q :: rest)) params =
          .ok (q :: (c ++ q :: r)) := by
  have hqn : NUL ≠ q := by
    rcases hquote with rfl | rfl <;> decide
  have hX : NUL ∉ q :: (c ++ [q]) := by
    simp [hnul, hqn]
  have hscan : ∀ s, loop ([] ++ Q) params.length ((q :: (c ++ [q])) ++ s) Scan.init =
      loop ([] ++ Q) params.length s
        (Scan.init.shift (q :: (c ++ [q])) ([] : List (List Char)).length) := by
    intro s
    have e3 : (q :: (c ++ [q])) ++ s = q :: (c ++ q :: s) := by simp
    rw [e3, Scan.shift_init, loop_quoted _ _ q hquote c hc s]
    rfl
  have key := interpolate_after_prefix [] (q :: (c ++ [q])) (q :: (c ++ [q])) rest
    (by simpa using hq) hq hX hscan
  simpa using key

/-- C7 (amended) at a single-quoted literal holding a marker, an escaped
marker, a double quote and comment openers. -/
theorem interpolate_quoted_literal_witness :
    rdo_driver_interpolate ⟨id⟩ "'a?\\?\"--/*' = ?".toList [.fixnum 3 (by decide)] =
      .ok "'a?\\?\"--/*' = 3".toList :=
  (interpolate_quoted_literal ⟨id⟩ '\'' "a?\\?\"--/*".toList " = ?".toList [.fixnum 3 (by decide)]
    [['3']] 1 (Or.inl rfl) (by decide) (by decide) rfl).2 " = 3".toList rfl

/-- C7 as stated fails when the literal holds a NUL byte: the text `\0` has no
single quote, `interpolate "?" [1]` returns `1`, yet on `'\0'?` the scan stops
inside the literal and the call raises the mismatch error. -/
theorem interpolate_quoted_literal_counterexample :
    '\'' ∉ [NUL] ∧
      rdo_driver_quote_params ⟨id⟩ [.fixnum 1 (by decide)] = .ok ([['1']], 1) ∧
      rdo_driver_interpolate ⟨id⟩ ['?'] [.fixnum 1 (by decide)] = .ok ['1'] ∧
      rdo_driver_interpolate ⟨id⟩ ('\'' :: ([NUL] ++ '\'' :: ['?'])) [.fixnum 1 (by decide)] =
        .error (.ArgumentError 1 0 ['\'']) :=
  ⟨by decide, rfl, rfl, rfl⟩

/-! ## Templates without markers -/

/-- At a byte other than a marker, not followed by a marker, the body copies
what it consumes and counts nothing, whatever the context. -/
theorem body_copy (Q : List (List Char)) (a : Nat) (c y : Char) (st : Scan)
    (hc : c ≠ '?') (hy : y ≠ '?') :
    (body Q a c y st).1.b = st.b ++ (if (body Q a c y st).2 then [c, y] else [c]) ∧
      (body Q a c y st).1.n = st.n := by
  by_cases g1 : c = '\\'
  · have e : body Q a c y st = case_backslash c y st := by simp [body, g1]
    rw [e]
    simp [case_backslash, Scan.put, hy]
  by_cases g3 : c = '-'
  · have e : body Q a c y st = case_dash c y st := by simp [body, g3]
    rw [e]
    simp only [case_dash, Scan.put]
    split_ifs <;> simp_all
  by_cases g4 : c = '\r' ∨ c = '\n'
  · have e : body Q a c y st = case_newline c st := by simp [body, g1, hc, g3, g4]
    rw [e]
    simp [case_newline, Scan.put]
  by_cases g5 : c = '/'
  · have e : body Q a c y st = case_slash c y st := by simp [body, g5]
    rw [e]
    simp only [case_slash, Scan.put]
    split_ifs <;> simp_all
  by_cases g6 : c = '*'
  · have e : body Q a c y st = case_star c y st := by simp [body, g6]
    rw [e]
    simp only [case_star, Scan.put]
    split_ifs <;> simp_all
  by_cases g7 : c = '\''
  · have e : body Q a c y st = case_squote c st := by simp [body, g7]
    rw [e]
    simp only [case_squote, Scan.put]
    split_ifs <;> simp_all
  by_cases g8 : c = '"'
  · have e : body Q a c y st = case_dquote c st := by simp [body, g8]
    rw [e]
    simp only [case_dquote, Scan.put]
    split_ifs <;> simp_all
  have e : body Q a c y st = case_default c st := by
    simp [body, g1, hc, g3, g4, g5, g6, g7, g8]
  rw [e]
  simp [case_default, Scan.put]

/-- Scanning text without a marker copies it and counts nothing, from any
state. -/
theorem loop_copy (Q : List (List Char)) (a : Nat) :
    ∀ (s : List Char) (st : Scan), '?' ∉ s →
      (loop Q a s st).b = st.b ++ s ∧ (loop Q a s st).n = st.n := by
  intro s
  induction s using scan_induction with
  | h0 => intro st _; simp [loop]
  | h1 c s ih1 ih2 =>
    intro st h
    have hc : c ≠ '?' := fun e => h (by simp [e])
    have hs : '?' ∉ s := fun e => h (by simp [e])
    have hy : s.headD NUL ≠ '?' := by
      cases s with
      | nil => decide
      | cons y s =>
        intro e
        have e2 : y = '?' := e
        exact hs (by simp [e2])
    obtain ⟨hb, hn⟩ := body_copy Q a c (s.headD NUL) st hc hy
    rw [loop_cons]
    cases hadv : (body Q a c (s.headD NUL) st).2
    · rw [hadv] at hb
      obtain ⟨h1, h2⟩ := ih1 (body Q a c (s.headD NUL) st).1 hs
      simp only [Bool.false_eq_true, if_false] at hb ⊢
      rw [h1, h2, hb, hn]
      simp
    · rw [hadv] at hb
      cases s with
      | nil =>
        rw [List.headD_nil, body_NUL_snd] at hadv
        cases hadv
      | cons y s =>
        have hs2 : '?' ∉ s := fun e => hs (by simp [e])
        obtain ⟨h1, h2⟩ := ih2 (body Q a c ((y :: s).headD NUL) st).1 hs2
        simp only [if_true, List.tail_cons, List.headD_cons] at hb hn h1 h2 ⊢
        rw [h1, h2, hb, hn]
        simp

/-- C8: for every template that contains no `?` and no NUL byte, whatever
else it contains, `interpolate template []` succeeds and returns exactly the
template. -/
theorem interpolate_no_marker (self : Driver) (template : List Char)
    (hm : '?' ∉ template) (hnul : NUL ∉ template) :
    rdo_driver_interpolate self template [] = .ok template := by
  obtain ⟨hb, hn⟩ := loop_copy [] 0 template Scan.init hm
  rw [interpolate_of_quoted (quote_params_nil self), cstr_of_nonul hnul]
  simp only [List.length_nil]
  rw [hb, hn]
  simp [Scan.init]

/-- C8 at a template with a backslash, an unterminated quote and unbalanced
comment openers and terminators. -/
theorem interpolate_no_marker_witness :
    rdo_driver_interpolate ⟨id⟩ "a \\ 'b /* c */ */ -- d".toList [] =
      .ok "a \\ 'b /* c */ */ -- d".toList :=
  interpolate_no_marker ⟨id⟩ "a \\ 'b /* c */ */ -- d".toList (by decide) (by decide)

/-! ## The quoter against its reference -/

theorem digitChar_ne_NUL : ∀ k < 10, Nat.digitChar k ≠ NUL := by decide

theorem toDigitsCore_nonul :
    ∀ (fuel n : Nat) (ds : List Char), NUL ∉ ds → NUL ∉ Nat.toDigitsCore 10 fuel n ds := by
  intro fuel
  induction fuel with
  | zero => intro n ds h; simpa [Nat.toDigitsCore] using h
  | succ fuel ih =>
    intro n ds h
    have hd : NUL ∉ Nat.digitChar (n % 10) :: ds := by
      intro e
      rcases List.mem_cons.mp e with e | e
      · exact digitChar_ne_NUL _ (Nat.mod_lt n (by decide)) e.symm
      · exact h e
    unfold Nat.toDigitsCore
    simp only
    split_ifs
    · exact hd
    · exact ih _ _ hd

/-- The decimal rendering of an Integer holds no NUL byte. -/
theorem fixnum_to_s_nonul (n : Int) : NUL ∉ fixnum_to_s n := by
  cases n with
  | ofNat n => exact toDigitsCore_nonul _ _ _ (by simp)
  | negSucc n =>
    have := toDigitsCore_nonul (n + 1 + 1) (n + 1) [] (by simp)
    have e : NUL ≠ '-' := by decide
    simpa [fixnum_to_s, Nat.toDigits, e] using this

/-- The quoting switch raises at an offending parameter: `Check_Type` fails
on the value the driver returned. -/
theorem quote_case_offending {self : Driver} {v : VALUE} (h : Offending self v) :
    quote_case self v = .error (.TypeError (TYPE (self.quote v)) .T_STRING) := by
  obtain ⟨⟨h1, h2, h3⟩, h4⟩ := h
  rw [quote_case_default self v h1 h2 h3]
  cases hv : self.quote v <;> simp [hv, TYPE] at h4 ⊢

/-- The quoting switch succeeds at every other parameter. -/
theorem quote_case_not_offending {self : Driver} {v : VALUE} (h : ¬ Offending self v) :
    ∃ q l, quote_case self v = .ok (q, l) := by
  cases v with
  | nil => exact ⟨_, _, rfl⟩
  | fixnum n hn => exact ⟨_, _, rfl⟩
  | bignum n hn =>
    rw [quote_case_default self _ (by simp [TYPE]) (by simp [TYPE]) (by simp [TYPE])]
    cases hv : self.quote (.bignum n hn) <;> simp [Offending, Other, TYPE, hv] at h ⊢
  | float f => exact ⟨_, _, rfl⟩
  | string s =>
    rw [quote_case_default self _ (by simp [TYPE]) (by simp [TYPE]) (by simp [TYPE])]
    cases hv : self.quote (.string s) <;> simp [Offending, Other, TYPE, hv] at h ⊢
  | object id =>
    rw [quote_case_default self _ (by simp [TYPE]) (by simp [TYPE]) (by simp [TYPE])]
    cases hv : self.quote (.object id) <;> simp [Offending, Other, TYPE, hv] at h ⊢

/-- The quoting pass raises at the first offending parameter. -/
theorem quote_params_offending (self : Driver) (v : VALUE) (later : List VALUE)
    (hv : Offending self v) :
    ∀ good : List VALUE, (∀ w ∈ good, ¬ Offending self w) →
      rdo_driver_quote_params self (good ++ v :: later) =
        .error (.TypeError (TYPE (self.quote v)) .T_STRING) := by
  intro good
  induction good with
  | nil =>
    intro _
    rw [List.nil_append, quote_params_cons, quote_case_offending hv]
  | cons w good ih =>
    intro h
    obtain ⟨q, l, hw⟩ := quote_case_not_offending (h w (by simp))
    rw [List.cons_append, quote_params_cons, hw, ih (fun u hu => h u (by simp [hu]))]

/-- C10 (amended): for every template and every parameter list whose first
offending parameter `v` (a parameter the driver quotes for which `#quote`
returns a value that is not a String) comes after the parameters `good`,
`interpolate` returns no text and fails with the type error that `Check_Type`
raises for what `#quote` returned for `v`; the error does not carry the
position of `v`; the template plays no part, so the error takes precedence
over the mismatch error. -/
theorem interpolate_invalid_quote (self : Driver) (stmt : List Char)
    (good : List VALUE) (v : VALUE) (later : List VALUE)
    (hgood : ∀ w ∈ good, ¬ Offending self w) (hv : Offending self v) :
    rdo_driver_interpolate self stmt (good ++ v :: later) =
      .error (.TypeError (TYPE (self.quote v)) .T_STRING) :=
  interpolate_of_quote_error (quote_params_offending self v later hv good hgood) stmt

/-- C10 (amended) on a template whose marker count does not match: the
parameter list `[nil, object, 2]` with a driver that returns the object
itself. -/
theorem interpolate_invalid_quote_witness :
    rdo_driver_interpolate ⟨id⟩ "SELECT ?".toList
        ([.nil] ++ .object 1 :: [.fixnum 2 (by decide)]) =
      .error (.TypeError .T_OBJECT .T_STRING) :=
  interpolate_invalid_quote ⟨id⟩ "SELECT ?".toList [.nil] (.object 1) [.fixnum 2 (by decide)]
    (by decide) (by decide)

/-- C10 as stated fails: the error does not carry the position of the
offending parameter.  With the offending parameter first, or second after a
nil, the call raises the same error, so no position can be read off the
error. -/
theorem interpolate_invalid_quote_counterexample :
    rdo_driver_interpolate ⟨id⟩ ['?'] [.object 1] =
        .error (.TypeError .T_OBJECT .T_STRING) ∧
      rdo_driver_interpolate ⟨id⟩ ['?'] [.nil, .object 1] =
        .error (.TypeError .T_OBJECT .T_STRING) ∧
      ¬ ∃ position : Error → Nat,
        ∀ (self : Driver) (stmt : List Char) (good : List VALUE) (v : VALUE)
          (later : List VALUE),
          (∀ w ∈ good, ¬ Offending self w) → Offending self v →
            ∃ e, rdo_driver_interpolate self stmt (good ++ v :: later) = .error e ∧
              position e = good.length := by
  refine ⟨rfl, rfl, ?_⟩
  rintro ⟨position, h⟩
  obtain ⟨e1, h1, p1⟩ := h ⟨id⟩ ['?'] [] (.object 1) [] (by decide) (by decide)
  obtain ⟨e2, h2, p2⟩ := h ⟨id⟩ ['?'] [.nil] (.object 1) [] (by decide) (by decide)
  have r1 : rdo_driver_interpolate ⟨id⟩ ['?'] ([] ++ VALUE.object 1 :: []) =
      .error (.TypeError .T_OBJECT .T_STRING) := rfl
  have r2 : rdo_driver_interpolate ⟨id⟩ ['?'] ([VALUE.nil] ++ VALUE.object 1 :: []) =
      .error (.TypeError .T_OBJECT .T_STRING) := rfl
  rw [r1] at h1
  rw [r2] at h2
  cases h1
  cases h2
  simp at p1 p2
  omega

/-! ## Round trip of Integer literals -/

theorem digit_value_digitChar : ∀ k < 10, digit_value (Nat.digitChar k) = some k := by decide

/-- Reading back the digits that `Nat.toDigitsCore` puts in front of `ds`
continues from the number rendered. -/
theorem parse_toDigitsCore :
    ∀ (fuel n : Nat) (ds : List Char), n < fuel →
      parse_digits (Nat.toDigitsCore 10 fuel n ds) 0 = parse_digits ds n := by
  intro fuel
  induction fuel with
  | zero => intro n ds h; omega
  | succ fuel ih =>
    intro n ds h
    have hd := digit_value_digitChar (n % 10) (Nat.mod_lt n (by decide))
    unfold Nat.toDigitsCore
    simp only
    split_ifs with h0
    · have hn : n % 10 = n := Nat.mod_eq_of_lt (by omega)
      rw [hn] at hd
      simp [parse_digits, hd, hn]
    · rw [ih (n / 10) _ (by omega)]
      simp only [parse_digits, hd]
      congr 1
      omega

theorem toDigitsCore_ne_nil :
    ∀ (fuel n : Nat) (ds : List Char), ds ≠ [] → Nat.toDigitsCore 10 fuel n ds ≠ [] := by
  intro fuel
  induction fuel with
  | zero => intro n ds h; simpa [Nat.toDigitsCore] using h
  | succ fuel ih =>
    intro n ds _
    unfold Nat.toDigitsCore
    simp only
    split_ifs
    · simp
    · exact ih _ _ (by simp)

theorem toDigits_ne_nil (n : Nat) : Nat.toDigits 10 n ≠ [] := by
  unfold Nat.toDigits Nat.toDigitsCore
  simp only
  split_ifs
  · simp
  · exact toDigitsCore_ne_nil _ _ _ (by simp)

theorem parse_toDigits (n : Nat) : parse_digits (Nat.toDigits 10 n) 0 = some n := by
  unfold Nat.toDigits
  rw [parse_toDigitsCore (n + 1) n [] (by omega)]
  rfl

/-- The decimal rendering of an Integer parses back to it. -/
theorem parse_fixnum_to_s (n : Int) : parse_decimal (fixnum_to_s n) = some n := by
  cases n with
  | ofNat n =>
    have hp := parse_toDigits n
    have hne := toDigits_ne_nil n
    simp only [fixnum_to_s]
    rcases hs : Nat.toDigits 10 n with _ | ⟨c, cs⟩
    · exact absurd hs hne
    · rw [hs] at hp
      have hc : c ≠ '-' := by
        rintro rfl
        have : digit_value '-' = none := by decide
        simp [parse_digits, this] at hp
      simp [parse_decimal, hc, hp]
  | negSucc n =>
    have hp := parse_toDigits (n + 1)
    have hne := toDigits_ne_nil (n + 1)
    simp only [fixnum_to_s, parse_decimal, if_true, if_neg hne, hp, Option.map_some']
    rfl

/-- A fragment stored for a Bignum never parses as a decimal integer: it
begins with the quote mark of the `default` branch. -/
theorem quote_case_bignum_unparsed {self : Driver} {n : Int}
    {h : n < FIXNUM_MIN ∨ FIXNUM_MAX < n} {q : List Char} {l : Nat}
    (hq : quote_case self (.bignum n h) = .ok (q, l)) : parse_decimal q = none := by
  rw [quote_case_default self _ (by simp [TYPE]) (by simp [TYPE]) (by simp [TYPE])] at hq
  cases hv : self.quote (.bignum n h) <;> rw [hv] at hq <;> simp at hq
  have hd : digit_value '\'' = none := by decide
  rw [← hq.1]
  simp [parse_decimal, parse_digits, hd]

/-- C11 (amended): for every Integer `n` in the Fixnum range (negative, zero
or positive) the fragment the quoter stores for the Fixnum `n` is its decimal
rendering, which parsed back as a decimal integer is `n`; and `interpolate "?"
[n]` returns that fragment, so its result parses back to `n`. -/
theorem quote_fixnum_round_trip (self : Driver) (n : Int)
    (h : FIXNUM_MIN ≤ n ∧ n ≤ FIXNUM_MAX) :
    ∃ q l, quote_case self (.fixnum n h) = .ok (q, l) ∧
      parse_decimal q = some n ∧
      rdo_driver_interpolate self ['?'] [.fixnum n h] = .ok q := by
  have hc : quote_case self (.fixnum n h) = .ok (fixnum_to_s n, (fixnum_to_s n).length) := by
    simp [quote_case, TYPE, to_s, Check_Type, RSTRING, cstr_of_nonul (fixnum_to_s_nonul n)]
  have hq : rdo_driver_quote_params self [.fixnum n h] =
      .ok ([fixnum_to_s n], (fixnum_to_s n).length + 0) := by
    rw [quote_params_cons, hc, quote_params_nil]
  refine ⟨_, _, hc, parse_fixnum_to_s n, ?_⟩
  rw [interpolate_unquoted hq ['?'] (by decide) (by decide)]
  simp [fill]

/-- C11 (amended) at a negative Fixnum, at zero and at the largest Fixnum. -/
theorem quote_fixnum_round_trip_witness :
    (∃ q l, quote_case ⟨id⟩ (.fixnum (-42) (by decide)) = .ok (q, l) ∧
        parse_decimal q = some (-42) ∧
        rdo_driver_interpolate ⟨id⟩ ['?'] [.fixnum (-42) (by decide)] = .ok q) ∧
      (∃ q l, quote_case ⟨id⟩ (.fixnum 0 (by decide)) = .ok (q, l) ∧
        parse_decimal q = some 0 ∧
        rdo_driver_interpolate ⟨id⟩ ['?'] [.fixnum 0 (by decide)] = .ok q) ∧
      (∃ q l, quote_case ⟨id⟩ (.fixnum 4611686018427387903 (by decide)) = .ok (q, l) ∧
        parse_decimal q = some 4611686018427387903 ∧
        rdo_driver_interpolate ⟨id⟩ ['?'] [.fixnum 4611686018427387903 (by decide)] = .ok q) ∧
      rdo_driver_interpolate ⟨id⟩ ['?'] [.fixnum (-42) (by decide)] = .ok ['-', '4', '2'] :=
  ⟨quote_fixnum_round_trip ⟨id⟩ (-42) (by decide),
    quote_fixnum_round_trip ⟨id⟩ 0 (by decide),
    quote_fixnum_round_trip ⟨id⟩ 4611686018427387903 (by decide), rfl⟩

/-- C11 as stated fails for an Integer beyond the Fixnum range: the Integer
`4611686018427387904` is a Bignum, which the switch of line 21 sends to the
`default` branch; with a driver whose `#quote` returns the decimal text, the
fragment is that text between quote marks, and neither the fragment nor the
result of `interpolate "?"` parses back as a decimal integer. -/
theorem quote_fixnum_round_trip_counterexample :
    quote_case ⟨to_s⟩ (.bignum 4611686018427387904 (by decide)) =
        .ok ("'4611686018427387904'".toList, 21) ∧
      rdo_driver_interpolate ⟨to_s⟩ ['?'] [.bignum 4611686018427387904 (by decide)] =
        .ok "'4611686018427387904'".toList ∧
      parse_decimal "4611686018427387904".toList = some 4611686018427387904 ∧
      parse_decimal "'4611686018427387904'".toList = none :=
  ⟨rfl, rfl, by decide, by decide⟩

/-! ## The states of the scan -/

/-- One unfolding of the list of states. -/
theorem loop_states_cons (q : List (List Char)) (a : Nat) (c : Char) (s : List Char)
    (st : Scan) :
    loop_states q a (c :: s) st =
      st :: loop_states q a (if (body q a c (s.headD NUL) st).2 then s.tail else s)
        (body q a c (s.headD NUL) st).1 := by
  cases s with
  | nil => simp [loop_states, body_NUL_snd]
  | cons d s =>
    simp only [loop_states, List.headD_cons, List.tail_cons]
    rcases hb : body q a c d st with ⟨st1, adv⟩
    cases adv <;> simp

/-- The state at the exit of the loop is the last of its states. -/
theorem loop_mem_loop_states (q : List (List Char)) (a : Nat) :
    ∀ (s : List Char) (st : Scan), loop q a s st ∈ loop_states q a s st := by
  intro s
  induction s using scan_induction with
  | h0 => intro st; simp [loop, loop_states]
  | h1 c s ih1 ih2 =>
    intro st
    rw [loop_cons, loop_states_cons]
    cases (body q a c (s.headD NUL) st).2
    · simpa using Or.inr (ih1 _)
    · simpa using Or.inr (ih2 _)

/-- The scan starts in its first state. -/
theorem head_mem_loop_states (q : List (List Char)) (a : Nat) (s : List Char) (st : Scan) :
    st ∈ loop_states q a s st := by
  cases s with
  | nil => simp [loop_states]
  | cons c s => simp [loop_states_cons]

/-! ## The size of the buffer -/

theorem fragments_left_step (Q : List (List Char)) (n : Nat) :
    (Q.getD n []).length + fragments_left Q (n + 1) = fragments_left Q n := by
  unfold fragments_left
  by_cases h : n < Q.length
  · rw [List.drop_eq_getElem_cons h, List.getD_eq_getElem Q [] h]
    simp only [List.map_cons, List.sum_cons]
  · rw [List.getD_eq_default Q [] (by omega), List.drop_eq_nil_of_le (by omega),
      List.drop_eq_nil_of_le (by omega)]
    simp

theorem fragments_left_succ_le (Q : List (List Char)) (n : Nat) :
    fragments_left Q (n + 1) ≤ fragments_left Q n := by
  have := fragments_left_step Q n
  omega

/-- One iteration never writes more than the bytes it consumes plus the
fragment it uses up. -/
theorem body_potential (Q : List (List Char)) (a : Nat) (c y : Char) (st : Scan) :
    (body Q a c y st).1.b.length + fragments_left Q (body Q a c y st).1.n ≤
      st.b.length + (if (body Q a c y st).2 then 2 else 1) + fragments_left Q st.n := by
  by_cases g1 : c = '\\'
  · have e : body Q a c y st = case_backslash c y st := by simp [body, g1]
    rw [e]
    simp only [case_backslash, Scan.put]
    split_ifs <;> simp_all
  by_cases g2 : c = '?'
  · have e : body Q a c y st = case_marker Q a c st := by simp [body, g2]
    have h1 := fragments_left_step Q st.n
    have h2 := fragments_left_succ_le Q st.n
    rw [e]
    unfold case_marker
    by_cases hact : (st.insquote || st.indquote || st.inmlcmt != 0 || st.inslcmt) = true
    · rw [if_pos hact]
      simp [Scan.put]
    · rw [if_neg hact]
      by_cases hn : st.n < a
      · rw [if_pos hn]
        simp only [Scan.put, List.length_append, Bool.false_eq_true, if_false]
        omega
      · rw [if_neg hn]
        simp only [Scan.put, List.length_append, List.length_singleton, Bool.false_eq_true,
          if_false]
        omega
  by_cases g3 : c = '-'
  · have e : body Q a c y st = case_dash c y st := by simp [body, g3]
    rw [e]
    simp only [case_dash, Scan.put]
    split_ifs <;> simp_all
  by_cases g4 : c = '\r' ∨ c = '\n'
  · have e : body Q a c y st = case_newline c st := by simp [body, g1, g2, g3, g4]
    rw [e]
    simp [case_newline, Scan.put]
  by_cases g5 : c = '/'
  · have e : body Q a c y st = case_slash c y st := by simp [body, g5]
    rw [e]
    simp only [case_slash, Scan.put]
    split_ifs <;> simp_all
  by_cases g6 : c = '*'
  · have e : body Q a c y st = case_star c y st := by simp [body, g6]
    rw [e]
    simp only [case_star, Scan.put]
    split_ifs <;> simp_all
  by_cases g7 : c = '\''
  · have e : body Q a c y st = case_squote c st := by simp [body, g7]
    rw [e]
    simp only [case_squote, Scan.put]
    split_ifs <;> simp_all
  by_cases g8 : c = '"'
  · have e : body Q a c y st = case_dquote c st := by simp [body, g8]
    rw [e]
    simp only [case_dquote, Scan.put]
    split_ifs <;> simp_all
  have e : body Q a c y st = case_default c st := by
    simp [body, g1, g2, g3, g4, g5, g6, g7, g8]
  rw [e]
  simp [case_default, Scan.put]

/-- At every state of the scan, what is written plus the fragments still to
use is at most what was written at the start, plus the bytes to scan, plus the
fragments still to use then. -/
theorem loop_states_potential (Q : List (List Char)) (a : Nat) :
    ∀ (s : List Char) (st : Scan), ∀ st1 ∈ loop_states Q a s st,
      st1.b.length + fragments_left Q st1.n ≤ st.b.length + s.length + fragments_left Q st.n := by
  intro s
  induction s using scan_induction with
  | h0 =>
    intro st st1 h
    simp [loop_states] at h
    subst h
    omega
  | h1 c s ih1 ih2 =>
    intro st st1 h
    rw [loop_states_cons] at h
    have hb := body_potential Q a c (s.headD NUL) st
    rcases List.mem_cons.mp h with rfl | h
    · simp only [List.length_cons]
      omega
    · cases hadv : (body Q a c (s.headD NUL) st).2
      · rw [hadv] at h hb
        simp only [Bool.false_eq_true, if_false] at h hb
        have := ih1 _ st1 h
        simp only [List.length_cons]
        omega
      · rw [hadv] at h hb
        simp only [if_true] at h hb
        have := ih2 _ st1 h
        have hl := List.length_tail s
        cases s with
        | nil =>
          rw [List.headD_nil, body_NUL_snd] at hadv
          cases hadv
        | cons y s =>
          simp only [List.length_cons, List.tail_cons] at this hl ⊢
          omega

theorem cstr_length_le (s : List Char) : (cstr s).length ≤ s.length := by
  unfold cstr
  exact (List.takeWhile_sublist _).length_le

/-- A stored fragment is never longer than the length recorded for it. -/
theorem quote_case_length_le {self : Driver} {v : VALUE} {q : List Char} {l : Nat}
    (h : quote_case self v = .ok (q, l)) : q.length ≤ l := by
  cases v with
  | nil =>
    simp [quote_case, TYPE] at h
    simp [← h.1, ← h.2]
  | fixnum n hn =>
    simp [quote_case, TYPE, to_s, Check_Type, RSTRING] at h
    rw [← h.1, ← h.2]
    exact cstr_length_le _
  | bignum n hn =>
    rw [quote_case_default self _ (by simp [TYPE]) (by simp [TYPE]) (by simp [TYPE])] at h
    cases hv : self.quote (.bignum n hn) <;> rw [hv] at h <;> simp at h
    rw [← h.1, ← h.2]
    have := cstr_length_le ‹List Char›
    simp
    omega
  | float f =>
    simp [quote_case, TYPE, to_s, Check_Type, RSTRING] at h
    rw [← h.1, ← h.2]
    exact cstr_length_le _
  | string s =>
    rw [quote_case_default self _ (by simp [TYPE]) (by simp [TYPE]) (by simp [TYPE])] at h
    cases hv : self.quote (.string s) <;> rw [hv] at h <;> simp at h
    rw [← h.1, ← h.2]
    have := cstr_length_le ‹List Char›
    simp
    omega
  | object id =>
    rw [quote_case_default self _ (by simp [TYPE]) (by simp [TYPE]) (by simp [TYPE])] at h
    cases hv : self.quote (.object id) <;> rw [hv] at h <;> simp at h
    rw [← h.1, ← h.2]
    have := cstr_length_le ‹List Char›
    simp
    omega

/-- The fragments together are never longer than the length the quoting pass
computes. -/
theorem quote_params_length_le (self : Driver) :
    ∀ (params : List VALUE) (Q : List (List Char)) (L : Nat),
      rdo_driver_quote_params self params = .ok (Q, L) → (Q.map List.length).sum ≤ L := by
  intro params
  induction params with
  | nil =>
    intro Q L hq
    rw [quote_params_nil] at hq
    cases hq
    simp
  | cons v params ih =>
    intro Q L hq
    rw [quote_params_cons] at hq
    rcases hc : quote_case self v with e | ⟨q, l⟩
    · rw [hc] at hq
      cases hq
    · rw [hc] at hq
      rcases hr : rdo_driver_quote_params self params with e | ⟨qs, l2⟩
      · rw [hr] at hq
        cases hq
      · rw [hr] at hq
        cases hq
        have h1 := quote_case_length_le hc
        have h2 := ih qs l2 hr
        simp only [List.map_cons, List.sum_cons]
        omega
/-- C12: for every template and every parameter list whose quoting succeeds
with fragments `Q` and computed length `L`, at every state of the scan and at
its end the text written is at most as long as the template plus all
fragments, hence fits, with its terminator, the buffer of `L + length + 1`
bytes allocated at line 84; the outcome of the call plays no part. -/
theorem scan_within_buffer (self : Driver) (stmt : List Char) (params : List VALUE)
    (Q : List (List Char)) (L : Nat)
    (hq : rdo_driver_quote_params self params = .ok (Q, L)) :
    (∀ st ∈ loop_states Q params.length (cstr stmt) Scan.init,
        st.b.length ≤ stmt.length + (Q.map List.length).sum ∧
          st.b.length + 1 ≤ L + stmt.length + 1) ∧
      (loop Q params.length (cstr stmt) Scan.init).b.length ≤
        stmt.length + (Q.map List.length).sum ∧
      (loop Q params.length (cstr stmt) Scan.init).b.length + 1 ≤ L + stmt.length + 1 := by
  have hL := quote_params_length_le self params Q L hq
  have hc := cstr_length_le stmt
  have key : ∀ st ∈ loop_states Q params.length (cstr stmt) Scan.init,
      st.b.length ≤ stmt.length + (Q.map List.length).sum ∧
        st.b.length + 1 ≤ L + stmt.length + 1 := by
    intro st hst
    have h := loop_states_potential Q params.length (cstr stmt) Scan.init st hst
    have h0 : fragments_left Q Scan.init.n = (Q.map List.length).sum := by
      simp [fragments_left, Scan.init]
    have h1 : Scan.init.b.length = 0 := rfl
    omega
  have hend := key _ (loop_mem_loop_states Q params.length (cstr stmt) Scan.init)
  exact ⟨key, hend.1, hend.2⟩

/-- C12 on a call that fails with the mismatch error: two markers, one
parameter `12`; the scan writes `12, ?`, five bytes, within the four bytes of
the template plus the two of the fragment. -/
theorem scan_within_buffer_witness :
    (loop [['1', '2']] [VALUE.fixnum 12 (by decide)].length (cstr "?, ?".toList) Scan.init).b.length ≤
        "?, ?".toList.length + ([['1', '2']].map List.length).sum ∧
      (loop [['1', '2']] 1 "?, ?".toList Scan.init).b = "12, ?".toList ∧
      rdo_driver_interpolate ⟨id⟩ "?, ?".toList [.fixnum 12 (by decide)] =
        .error (.ArgumentError 1 2 "?, ?".toList) :=
  ⟨(scan_within_buffer ⟨id⟩ "?, ?".toList [.fixnum 12 (by decide)] [['1', '2']] 2 rfl).2.1, rfl, rfl⟩

/-! ## The contexts of the scanner -/

/-- One iteration keeps the depth non-negative and at most one context
active. -/
theorem body_invariant (Q : List (List Char)) (a : Nat) (c y : Char) (st : Scan)
    (h0 : 0 ≤ st.inmlcmt) (h1 : st.active ≤ 1) :
    0 ≤ (body Q a c y st).1.inmlcmt ∧ (body Q a c y st).1.active ≤ 1 := by
  rcases st with ⟨b, n, sq, dq, ml, sl⟩
  have h0b : 0 ≤ ml := h0
  have h1b := h1
  simp only [Scan.active] at h1b
  by_cases g1 : c = '\\'
  · have e : body Q a c y ⟨b, n, sq, dq, ml, sl⟩ = case_backslash c y ⟨b, n, sq, dq, ml, sl⟩ := by
      simp [body, g1]
    rw [e]
    unfold case_backslash
    split_ifs
    · exact ⟨h0, h1⟩
    · exact ⟨h0, h1⟩
  by_cases g2 : c = '?'
  · have e : body Q a c y ⟨b, n, sq, dq, ml, sl⟩ = case_marker Q a c ⟨b, n, sq, dq, ml, sl⟩ := by
      simp [body, g2]
    rw [e]
    unfold case_marker
    split_ifs
    · exact ⟨h0, h1⟩
    · exact ⟨h0, h1⟩
    · exact ⟨h0, h1⟩
  by_cases g3 : c = '-'
  · have e : body Q a c y ⟨b, n, sq, dq, ml, sl⟩ = case_dash c y ⟨b, n, sq, dq, ml, sl⟩ := by
      simp [body, g3]
    rw [e]
    unfold case_dash
    split_ifs with h
    · simp only [Bool.and_eq_true, Bool.not_eq_true', beq_iff_eq] at h
      obtain ⟨⟨⟨r1, r2⟩, r3⟩, _⟩ := h
      subst r1 r2 r3
      simp [Scan.put, Scan.active]
    · exact ⟨h0, h1⟩
  by_cases g4 : c = '\r' ∨ c = '\n'
  · have e : body Q a c y ⟨b, n, sq, dq, ml, sl⟩ = case_newline c ⟨b, n, sq, dq, ml, sl⟩ := by
      simp [body, g1, g2, g3, g4]
    rw [e]
    refine ⟨h0, ?_⟩
    simp only [case_newline, Scan.put, Scan.active, Bool.false_eq_true, if_false]
    cases sl
    · simpa using h1b
    · simp only [if_true] at h1b
      omega
  by_cases g5 : c = '/'
  · have e : body Q a c y ⟨b, n, sq, dq, ml, sl⟩ = case_slash c y ⟨b, n, sq, dq, ml, sl⟩ := by
      simp [body, g5]
    rw [e]
    unfold case_slash
    split_ifs with h
    · simp only [Bool.and_eq_true, Bool.not_eq_true', beq_iff_eq] at h
      obtain ⟨⟨⟨r1, r2⟩, r3⟩, _⟩ := h
      subst r1 r2 r3
      have hm : 0 < ml + 1 := by omega
      simp only [Scan.put, Scan.active, Bool.false_eq_true, if_false, hm, if_true]
      omega
    · exact ⟨h0, h1⟩
  by_cases g6 : c = '*'
  · have e : body Q a c y ⟨b, n, sq, dq, ml, sl⟩ = case_star c y ⟨b, n, sq, dq, ml, sl⟩ := by
      simp [body, g6]
    rw [e]
    unfold case_star
    split_ifs with h
    · simp only [Bool.and_eq_true, bne_iff_ne, ne_eq, beq_iff_eq] at h
      have hm : 0 < ml := by omega
      simp only [hm, if_true] at h1b
      refine ⟨by simp only [Scan.put]; omega, ?_⟩
      simp only [Scan.put, Scan.active]
      by_cases hm2 : 0 < ml - 1
      · simp only [hm2, if_true]
        omega
      · simp only [hm2, if_false]
        omega
    · exact ⟨h0, h1⟩
  by_cases g7 : c = '\''
  · have e : body Q a c y ⟨b, n, sq, dq, ml, sl⟩ = case_squote c ⟨b, n, sq, dq, ml, sl⟩ := by
      simp [body, g7]
    rw [e]
    unfold case_squote
    split_ifs with h
    · simp only [Bool.and_eq_true, Bool.not_eq_true', beq_iff_eq] at h
      obtain ⟨⟨r1, r2⟩, r3⟩ := h
      subst r1 r2 r3
      cases sq <;> simp [Scan.put, Scan.active]
    · exact ⟨h0, h1⟩
  by_cases g8 : c = '"'
  · have e : body Q a c y ⟨b, n, sq, dq, ml, sl⟩ = case_dquote c ⟨b, n, sq, dq, ml, sl⟩ := by
      simp [body, g8]
    rw [e]
    unfold case_dquote
    split_ifs with h
    · simp only [Bool.and_eq_true, Bool.not_eq_true', beq_iff_eq] at h
      obtain ⟨⟨r1, r2⟩, r3⟩ := h
      subst r1 r2 r3
      cases dq <;> simp [Scan.put, Scan.active]
    · exact ⟨h0, h1⟩
  have e : body Q a c y ⟨b, n, sq, dq, ml, sl⟩ = case_default c ⟨b, n, sq, dq, ml, sl⟩ := by
    simp [body, g1, g2, g3, g4, g5, g6, g7, g8]
  rw [e]
  exact ⟨h0, h1⟩
/-- Every state of a scan that starts with a non-negative depth and at most
one active context has both properties. -/
theorem loop_states_invariant (Q : List (List Char)) (a : Nat) :
    ∀ (s : List Char) (st : Scan), 0 ≤ st.inmlcmt → st.active ≤ 1 →
      ∀ st1 ∈ loop_states Q a s st, 0 ≤ st1.inmlcmt ∧ st1.active ≤ 1 := by
  intro s
  induction s using scan_induction with
  | h0 =>
    intro st h0 h1 st1 h
    simp [loop_states] at h
    subst h
    exact ⟨h0, h1⟩
  | h1 c s ih1 ih2 =>
    intro st h0 h1 st1 h
    rw [loop_states_cons] at h
    obtain ⟨i0, i1⟩ := body_invariant Q a c (s.headD NUL) st h0 h1
    rcases List.mem_cons.mp h with rfl | h
    · exact ⟨h0, h1⟩
    · cases hadv : (body Q a c (s.headD NUL) st).2
      · rw [hadv] at h
        exact ih1 _ i0 i1 st1 h
      · rw [hadv] at h
        exact ih2 _ i0 i1 st1 h

/-- With a non-negative depth, a marker is counted, and replaced while
fragments remain, exactly when no context is active. -/
theorem body_marker (Q : List (List Char)) (a : Nat) (y : Char) (st : Scan)
    (h0 : 0 ≤ st.inmlcmt) :
    (body Q a '?' y st).1.n = (if st.active = 0 then st.n + 1 else st.n) ∧
      (body Q a '?' y st).1.b =
        st.b ++ (if st.active = 0 ∧ st.n < a then Q.getD st.n [] else ['?']) := by
  rcases st with ⟨b, n, sq, dq, ml, sl⟩
  have h0b : 0 ≤ ml := h0
  have e : body Q a '?' y ⟨b, n, sq, dq, ml, sl⟩ = case_marker Q a '?' ⟨b, n, sq, dq, ml, sl⟩ := by
    simp [body]
  rw [e]
  by_cases hm : ml = 0
  · subst hm
    cases sq <;> cases dq <;> cases sl <;> simp [case_marker, Scan.put, Scan.active]
    split_ifs <;> simp
  · have hp : 0 < ml := by omega
    simp [case_marker, Scan.put, Scan.active, hm, hp]

/-- C13: at every state of the scan of any template with any fragments and
any parameter count (the state after each prefix the loop has consumed, the
final one included), the block-comment depth is non-negative and at most one
of the four contexts (single-quoted string, double-quoted string, line
comment, block-comment depth above zero) is active; and a marker read in that
state is counted, and replaced while fragments remain, exactly when none of
the four is active. -/
theorem scan_state_invariant (Q : List (List Char)) (argc : Nat) (stmt : List Char) :
    ∀ st ∈ loop_states Q argc (cstr stmt) Scan.init,
      0 ≤ st.inmlcmt ∧ st.active ≤ 1 ∧
        ∀ next : Char,
          (body Q argc '?' next st).1.n = (if st.active = 0 then st.n + 1 else st.n) ∧
            (body Q argc '?' next st).1.b =
              st.b ++ (if st.active = 0 ∧ st.n < argc then Q.getD st.n [] else ['?']) := by
  intro st hst
  obtain ⟨h0, h1⟩ := loop_states_invariant Q argc (cstr stmt) Scan.init (by decide) (by decide)
    st hst
  exact ⟨h0, h1, fun next => body_marker Q argc next st h0⟩

/-- C13 at the state reached after the prefix `a 'b` of a template: inside a
single-quoted string and in no other context. -/
theorem scan_state_invariant_witness :
    (⟨"a 'b".toList, 0, true, false, 0, false⟩ : Scan) ∈
        loop_states [['1']] 1 (cstr "a 'b?' ?".toList) Scan.init ∧
      Scan.active ⟨"a 'b".toList, 0, true, false, 0, false⟩ = 1 ∧
      Scan.active ⟨"a 'b".toList, 0, true, false, 0, false⟩ ≤ 1 :=
  ⟨by decide, by decide,
    (scan_state_invariant [['1']] 1 "a 'b?' ?".toList
      ⟨"a 'b".toList, 0, true, false, 0, false⟩ (by decide)).2.1⟩

/-! ## Stray terminators and backslashes -/

/-- The prefix law when the scan of `X` is known in front of the remainder at
hand only (the lookahead of its last byte reads the remainder). -/
theorem interpolate_after_prefix_at {self : Driver} {params : List VALUE}
    {Q : List (List Char)} {L : Nat} (X pre rest : List Char)
    (hq : rdo_driver_quote_params self params = .ok (Q, L)) (hX : NUL ∉ X)
    (hscan : loop Q params.length (X ++ cstr rest) Scan.init =
      loop Q params.length (cstr rest) (Scan.normal pre 0)) :
    ((∃ e, rdo_driver_interpolate self (X ++ rest) params = .error e) ↔
        (∃ e, rdo_driver_interpolate self rest params = .error e)) ∧
      ∀ t, rdo_driver_interpolate self rest params = .ok t →
        rdo_driver_interpolate self (X ++ rest) params = .ok (pre ++ t) := by
  have hs := loop_shift [] Q params.length pre (cstr rest) Scan.init
  simp only [List.nil_append, List.length_nil, Nat.add_zero, Scan.shift_init] at hs
  rw [interpolate_of_quoted hq, interpolate_of_quoted hq, cstr_append hX, hscan, hs]
  simp only [Scan.shift, Nat.add_zero]
  by_cases hn : (loop Q params.length (cstr rest) Scan.init).n = params.length
  · simp [hn]
  · simp [hn]

/-- The first byte of a C string is the first byte of the String it is read
from, unless that is the terminator. -/
theorem cstr_headD_ne {rest : List Char} {x : Char} (hx : x ≠ NUL)
    (h : rest.head? ≠ some x) : (cstr rest).headD NUL ≠ x := by
  cases rest with
  | nil => simpa [cstr] using hx.symm
  | cons c r =>
    have hc : c ≠ x := by simpa using h
    by_cases hn : c = NUL
    · subst hn
      rw [cstr_NUL_cons]
      simpa using hx.symm
    · have e : cstr (c :: r) = c :: cstr r := by
        have := cstr_append (p := [c]) (by simpa using fun e => hn e.symm) r
        simpa using this
      rw [e]
      simpa using hc

/-- C14 (amended): a stray block-comment terminator in front of a remainder
that does not begin with `*` is a no-op: for every such remainder and every
parameter list whose quoting succeeds, `interpolate ("*/" ++ rest) params`
fails exactly when `interpolate rest params` fails, and otherwise is `*/`
followed by the result of `interpolate rest params`; scanning `*/` alone
leaves the depth at zero, and no error is raised for it. -/
theorem interpolate_stray_terminator (self : Driver) (rest : List Char)
    (params : List VALUE) (Q : List (List Char)) (L : Nat)
    (hrest : rest.head? ≠ some '*')
    (hq : rdo_driver_quote_params self params = .ok (Q, L)) :
    ((∃ e, rdo_driver_interpolate self ('*' :: '/' :: rest) params = .error e) ↔
        (∃ e, rdo_driver_interpolate self rest params = .error e)) ∧
      (∀ r, rdo_driver_interpolate self rest params = .ok r →
        rdo_driver_interpolate self ('*' :: '/' :: rest) params = .ok ('*' :: '/' :: r)) ∧
      loop Q params.length ['*', '/'] Scan.init = Scan.normal ['*', '/'] 0 := by
  have hh := cstr_headD_ne (x := '*') (by decide) hrest
  have hscan : loop Q params.length (['*', '/'] ++ cstr rest) Scan.init =
      loop Q params.length (cstr rest) (Scan.normal ['*', '/'] 0) := by
    have e1 : ['*', '/'] ++ cstr rest = '*' :: '/' :: cstr rest := rfl
    rw [e1, Scan.init_eq_normal, loop_cons,
      body_normal _ _ '*' _ _ _ (by decide) (by decide) (by decide) (by simp) (by simp)]
    simp only [Bool.false_eq_true, if_false]
    rw [loop_cons, body_normal _ _ '/' _ _ _ (by decide) (by decide) (by decide) (by simp)
      (by simpa using hh)]
    simp [fill]
  have hX : NUL ∉ ['*', '/'] := by decide
  have key := interpolate_after_prefix_at ['*', '/'] ['*', '/'] rest hq hX hscan
  refine ⟨by simpa using key.1, by simpa using key.2, ?_⟩
  rw [Scan.init_eq_normal, loop_cons,
    body_normal _ _ '*' _ _ _ (by decide) (by decide) (by decide) (by simp) (by simp)]
  simp only [Bool.false_eq_true, if_false]
  rw [loop_cons, body_normal _ _ '/' _ _ _ (by decide) (by decide) (by decide) (by simp)
    (by simp; decide)]
  simp [fill, loop]

/-- C14 (amended) at a stray terminator followed by a marker. -/
theorem interpolate_stray_terminator_witness :
    rdo_driver_interpolate ⟨id⟩ "*/ ?".toList [.fixnum 4 (by decide)] = .ok "*/ 4".toList :=
  (interpolate_stray_terminator ⟨id⟩ " ?".toList [.fixnum 4 (by decide)] [['4']] 1 (by decide) rfl).2.1
    " 4".toList rfl

/-- C14 as stated fails for a remainder that begins with `*`: in `*/*?` the
slash of the stray terminator and the star after it open a block comment, so
the marker is copied and the call raises the mismatch error, while
`interpolate "*?" [1]` returns `*1`. -/
theorem interpolate_stray_terminator_counterexample :
    rdo_driver_quote_params ⟨id⟩ [.fixnum 1 (by decide)] = .ok ([['1']], 1) ∧
      rdo_driver_interpolate ⟨id⟩ ['*', '?'] [.fixnum 1 (by decide)] = .ok ['*', '1'] ∧
      rdo_driver_interpolate ⟨id⟩ ('*' :: '/' :: ['*', '?']) [.fixnum 1 (by decide)] =
        .error (.ArgumentError 1 0 ['*', '/', '*', '?']) ∧
      (loop [['1']] 1 ['*', '/', '*', '?'] Scan.init).inmlcmt = 1 :=
  ⟨rfl, rfl, rfl, rfl⟩

/-- C15: for every remainder that does not begin with `?` (the empty
remainder and remainders beginning with a quote character or another
backslash included) and every parameter list whose quoting succeeds,
`interpolate ("\\" ++ rest) params` fails exactly when `interpolate rest
params` fails, and otherwise is the backslash followed by the result of
`interpolate rest params`: the backslash is copied and changes nothing in how
the remainder is scanned. -/
theorem interpolate_plain_backslash (self : Driver) (rest : List Char)
    (params : List VALUE) (Q : List (List Char)) (L : Nat)
    (hrest : rest.head? ≠ some '?')
    (hq : rdo_driver_quote_params self params = .ok (Q, L)) :
    ((∃ e, rdo_driver_interpolate self ('\\' :: rest) params = .error e) ↔
        (∃ e, rdo_driver_interpolate self rest params = .error e)) ∧
      ∀ r, rdo_driver_interpolate self rest params = .ok r →
        rdo_driver_interpolate self ('\\' :: rest) params = .ok ('\\' :: r) := by
  have hh := cstr_headD_ne (x := '?') (by decide) hrest
  have hscan : loop Q params.length (['\\'] ++ cstr rest) Scan.init =
      loop Q params.length (cstr rest) (Scan.normal ['\\'] 0) := by
    have e1 : ['\\'] ++ cstr rest = '\\' :: cstr rest := rfl
    have e2 : ∀ y : Char, y ≠ '?' → body Q params.length '\\' y Scan.init =
        (Scan.normal ['\\'] 0, false) := by
      intro y hy
      simp [body, case_backslash, Scan.init, Scan.normal, Scan.put, hy]
    rw [e1, loop_cons, e2 _ hh]
    simp
  have hX : NUL ∉ ['\\'] := by decide
  have key := interpolate_after_prefix_at ['\\'] ['\\'] rest hq hX hscan
  simpa using key

/-- C15 at a backslash in front of a single quote: the quote still opens a
literal, so the marker inside it stays and the one after it becomes `1`. -/
theorem interpolate_plain_backslash_witness :
    rdo_driver_interpolate ⟨id⟩ "\\'?' = ?".toList [.fixnum 1 (by decide)] = .ok "\\'?' = 1".toList :=
  (interpolate_plain_backslash ⟨id⟩ "'?' = ?".toList [.fixnum 1 (by decide)] [['1']] 1 (by decide) rfl).2
    "'?' = 1".toList rfl
/-! ## Doubled quotes -/

/-- The body at a single quote inside a single-quoted literal: the literal is
closed. -/
theorem body_squote_close (Q : List (List Char)) (a : Nat) (y : Char) (b : List Char)
    (n : Nat) :
    body Q a '\'' y (Scan.singleQuoted b n) = (Scan.normal (b ++ ['\'']) n, false) := by
  simp [body, case_squote, Scan.singleQuoted, Scan.normal, Scan.put]

/-- The body at a single quote outside every quote and comment: a literal is
opened. -/
theorem body_squote_open (Q : List (List Char)) (a : Nat) (y : Char) (b : List Char)
    (n : Nat) :
    body Q a '\'' y (Scan.normal b n) = (Scan.singleQuoted (b ++ ['\'']) n, false) := by
  simp [body, case_squote, Scan.singleQuoted, Scan.normal, Scan.put]

/-- Scanning text made of other characters and doubled quotes inside a
single-quoted literal copies it and ends inside the literal. -/
theorem loop_doubledText (Q : List (List Char)) (a : Nat) (n : Nat) {c : List Char}
    (h : DoubledText c) :
    ∀ (s b : List Char),
      loop Q a (c ++ s) (Scan.singleQuoted b n) = loop Q a s (Scan.singleQuoted (b ++ c) n) := by
  induction h with
  | nil => intro s b; simp
  | char x t hx _ ih =>
    intro s b
    rw [List.cons_append, loop_cons, body_singleQuoted Q a x _ b n hx]
    simp only [Bool.false_eq_true, if_false]
    rw [ih s _]
    simp
  | pair t _ ih =>
    intro s b
    have e1 : ('\'' :: '\'' :: t) ++ s = '\'' :: '\'' :: (t ++ s) := rfl
    rw [e1, loop_cons, body_squote_close]
    simp only [Bool.false_eq_true, if_false]
    rw [loop_cons, body_squote_open]
    simp only [Bool.false_eq_true, if_false]
    rw [ih s _]
    simp

/-- C16 (amended): for every text `c` without NUL bytes built from characters
other than the single quote and from doubled single quotes, every remainder
and every parameter list whose quoting succeeds, `interpolate ("'" ++ c ++
"'" ++ rest) params` fails exactly when `interpolate rest params` fails, and
otherwise is `"'" ++ c ++ "'"` followed by the result of `interpolate rest
params`; no marker of `c` is replaced or counted, although the first quote of
each pair closes the literal and the second opens it again. -/
theorem interpolate_doubled_quotes (self : Driver) (c rest : List Char)
    (params : List VALUE) (Q : List (List Char)) (L : Nat)
    (hc : DoubledText c) (hnul : NUL ∉ c)
    (hq : rdo_driver_quote_params self params = .ok (Q, L)) :
    ((∃ e, rdo_driver_interpolate self ('\'' :: (c ++ '\'' :: rest)) params = .error e) ↔
        (∃ e, rdo_driver_interpolate self rest params = .error e)) ∧
      (∀ r, rdo_driver_interpolate self rest params = .ok r →
        rdo_driver_interpolate self ('\'' :: (c ++ '\'' :: rest)) params =
          .ok ('\'' :: (c ++ '\'' :: r))) ∧
      ∀ (b : List Char) (n : Nat) (y : Char),
        (body Q params.length '\'' y (Scan.singleQuoted b n)).1 =
          Scan.normal (b ++ ['\'']) n := by
  have hX : NUL ∉ '\'' :: (c ++ ['\'']) := by
    have e : NUL ≠ '\'' := by decide
    simp [hnul, e]
  have hscan : loop Q params.length (('\'' :: (c ++ ['\''])) ++ cstr rest) Scan.init =
      loop Q params.length (cstr rest) (Scan.normal ('\'' :: (c ++ ['\''])) 0) := by
    have e1 : ('\'' :: (c ++ ['\''])) ++ cstr rest = '\'' :: (c ++ '\'' :: cstr rest) := by
      simp
    rw [e1, Scan.init_eq_normal, loop_cons, body_squote_open]
    simp only [Bool.false_eq_true, if_false]
    rw [loop_doubledText Q _ 0 hc, loop_cons, body_squote_close]
    simp
  have key := interpolate_after_prefix_at ('\'' :: (c ++ ['\''])) ('\'' :: (c ++ ['\'']))
    rest hq hX hscan
  refine ⟨by simpa using key.1, by simpa using key.2, ?_⟩
  intro b n y
  rw [body_squote_close]

/-- C16 (amended) at the literal `'it''s ?'`: the marker after the doubled
quote stays, the marker after the literal becomes `2`. -/
theorem interpolate_doubled_quotes_witness :
    rdo_driver_interpolate ⟨id⟩ "'it''s ?' = ?".toList [.fixnum 2 (by decide)] =
      .ok "'it''s ?' = 2".toList :=
  (interpolate_doubled_quotes ⟨id⟩ "it''s ?".toList " = ?".toList [.fixnum 2 (by decide)] [['2']] 1
    (DoubledText.char 'i' _ (by decide) (DoubledText.char 't' _ (by decide)
      (DoubledText.pair _ (DoubledText.char 's' _ (by decide)
        (DoubledText.char ' ' _ (by decide) (DoubledText.char '?' _ (by decide)
          DoubledText.nil))))))
    (by decide) rfl).2.1 " = 2".toList rfl

/-- C16 as stated fails when the text holds a NUL byte: `''\0` is a doubled
quote followed by a character other than the single quote, `interpolate "?"
[1]` returns `1`, yet on `'''\0'?` the scan stops at the NUL byte and the
call raises the mismatch error. -/
theorem interpolate_doubled_quotes_counterexample :
    DoubledText ['\'', '\'', NUL] ∧
      rdo_driver_quote_params ⟨id⟩ [.fixnum 1 (by decide)] = .ok ([['1']], 1) ∧
      rdo_driver_interpolate ⟨id⟩ ['?'] [.fixnum 1 (by decide)] = .ok ['1'] ∧
      rdo_driver_interpolate ⟨id⟩ ('\'' :: (['\'', '\'', NUL] ++ '\'' :: ['?'])) [.fixnum 1 (by decide)] =
        .error (.ArgumentError 1 0 ['\'', '\'', '\'']) :=
  ⟨DoubledText.pair _ (DoubledText.char NUL _ (by decide) DoubledText.nil), rfl, rfl, rfl⟩

/-! ## `RDO_BOOL` (util/macros.h) -/

/-- C17: for every C string `s`, `RDO_BOOL(s)` is true if and only if the
first byte of `s` is `t`; so it is true for `t` and `true`, false for `f` and
`false`, and false for the empty string. -/
theorem RDO_BOOL_iff_first_byte :
    (∀ s : List Char, RDO_BOOL s = true ↔ s.head? = some 't') ∧
      RDO_BOOL "t".toList = true ∧ RDO_BOOL "true".toList = true ∧
      RDO_BOOL "f".toList = false ∧ RDO_BOOL "false".toList = false ∧
      RDO_BOOL [] = false := by
  refine ⟨?_, by decide, by decide, by decide, by decide, by decide⟩
  intro s
  cases s with
  | nil =>
    have : NUL ≠ 't' := by decide
    simp [RDO_BOOL, this]
  | cons c r => simp [RDO_BOOL]

end RDO
